import Mathlib

/-!
# Verification of the syntax-list reconciliation engine

This development embeds the reconciliation engine of the repository:
`insertIntoSyntaxList` with its local `handleNode` / `handleSyntaxList`
walk and `areNodesEqual` dispatch test, together with the
`StraightReplacementNodeHandler`, and settles the specification's claims
about them.

The underlying parse-tree nodes are modelled as finite rose trees carrying
a construct kind and absolute start/end offsets.  So that all functions are
structurally recursive (and hence evaluate by `decide` on concrete inputs),
the child sequence is represented by a forest type `CForest` that is
mutually inductive with `CNode`; a small list-like API on `CForest` bridges
to ordinary lists where convenient.

The wrapper registry (`CompilerFactory`) is not part of the sampled source
(only its call sites are), so its two operations are modelled from the
spec, as noted on their doc comments.
-/

mutual

/-- An underlying parse-tree node from the external parser: a construct
kind, absolute start/end offsets, and the ordered children. -/
inductive CNode : Type where
  | node (kind pos endPos : Nat) (children : CForest)
deriving DecidableEq

/-- The ordered child sequence of a `CNode` (a forest), kept mutually
inductive with `CNode` so that the reconciliation walk is structurally
recursive. -/
inductive CForest : Type where
  | nil : CForest
  | cons (head : CNode) (tail : CForest) : CForest
deriving DecidableEq

end

/-- The construct kind of a node (TS `node.getKind()`). -/
def CNode.kind : CNode → Nat
  | .node k _ _ _ => k

/-- The absolute start offset of a node (TS `node.getPos()`). -/
def CNode.pos : CNode → Nat
  | .node _ p _ _ => p

/-- The absolute end offset of a node. -/
def CNode.endPos : CNode → Nat
  | .node _ _ e _ => e

/-- The ordered children of a node (TS `node.getChildren()`). -/
def CNode.children : CNode → CForest
  | .node _ _ _ cs => cs

/-- Length of a forest. -/
def CForest.length : CForest → Nat
  | .nil => 0
  | .cons _ cs => cs.length + 1

/-- Append of forests. -/
def CForest.append : CForest → CForest → CForest
  | .nil, ys => ys
  | .cons x xs, ys => .cons x (xs.append ys)

/-- First `n` children of a forest. -/
def CForest.take : Nat → CForest → CForest
  | 0, _ => .nil
  | _ + 1, .nil => .nil
  | n + 1, .cons c cs => .cons c (CForest.take n cs)

/-- Forest without its first `n` children. -/
def CForest.drop : Nat → CForest → CForest
  | 0, cs => cs
  | _ + 1, .nil => .nil
  | n + 1, .cons _ cs => CForest.drop n cs

/-- Map over a forest. -/
def CForest.map (f : CNode → CNode) : CForest → CForest
  | .nil => .nil
  | .cons c cs => .cons (f c) (CForest.map f cs)

/-- Indexed lookup into a forest. -/
def CForest.get? : CForest → Nat → Option CNode
  | .nil, _ => none
  | .cons c _, 0 => some c
  | .cons _ cs, n + 1 => cs.get? n

/-- Conversion to a plain list. -/
def CForest.toList : CForest → List CNode
  | .nil => []
  | .cons c cs => c :: cs.toList

/-- The fatal conditions the edit operation can surface. -/
inductive MErr : Type where
  /-- `ArgumentError`: the requested child index is outside
  `0 .. children.length` (thrown at the top of `insertIntoSyntaxList`). -/
  | argumentError (provided : Int) (maxIndex : Nat)
  /-- `InvalidOperationError` from the kind check of the walk, carrying the
  two mismatched constructs (the message is built from both nodes by
  `getInsertErrorMessageText`). -/
  | invalidOperation (current new : CNode)
  /-- The TypeError raised when the walk pulls a child from an exhausted
  pre-edit iterator (`next().value` is `undefined`) and then invokes a
  method on it. -/
  | undefinedAccess
  /-- The kind-mismatch condition of `replaceUnderlyingNode` (spec 4.1). -/
  | replaceKindMismatch (current new : CNode)
  /-- `Error("Should not have new children left over.")` thrown by
  `StraightReplacementNodeHandler.handleNode` after its child loop. -/
  | newChildrenLeftOver
deriving DecidableEq

/-- A long-lived caller-visible wrapper: stable identity `wid`, the current
underlying node, and the terminal `forgotten` flag. -/
structure Wrapper : Type where
  wid : Nat
  node : CNode
  forgotten : Bool
deriving DecidableEq

/-- The wrapper registry of one file: the wrappers it owns and the next
fresh wrapper identity. -/
structure Registry : Type where
  wrappers : List Wrapper
  nextId : Nat
deriving DecidableEq

/-- Modelled from the spec: `getOrCreateWrapper` of the Wrapper Registry
(spec 4.1) — the registry itself is not among the sampled source files.
Returns the registry unchanged when the exact underlying node is already
tracked, else registers a brand-new wrapper (fresh identity, not
forgotten) for it. -/
def getOrCreateWrapper (n : CNode) (r : Registry) : Registry :=
  if r.wrappers.any (fun w => w.node == n) then r
  else { wrappers := r.wrappers ++ [⟨r.nextId, n, false⟩], nextId := r.nextId + 1 }

/-- Re-keying step of `replaceUnderlyingNode`: the wrapper currently
holding `cur` now holds `new`; no wrapper object is allocated, identities
and forgotten flags are untouched. -/
def rekey (cur new : CNode) (r : Registry) : Registry :=
  { r with wrappers := r.wrappers.map fun w => if w.node = cur then { w with node := new } else w }

/-- Modelled from the spec: `replaceUnderlyingNode` of the Wrapper
Registry (spec 4.1) — not among the sampled source files.  Requires the
current and the new underlying node to agree in kind (violation is the
fatal kind-mismatch-during-replacement condition); on success it updates
the wrapper's current revision in place. -/
def replaceCompilerNode (cur new : CNode) (r : Registry) : Registry × Option MErr :=
  if cur.kind = new.kind then (rekey cur new r, none)
  else (r, some (.replaceKindMismatch cur new))

/-- `areNodesEqual` of `insertIntoSyntaxList`: two optional nodes are
considered equal when both are absent, or both are present with the same
start position and the same kind. -/
def areNodesEqual : Option CNode → Option CNode → Bool
  | none, none => true
  | none, some _ => false
  | some _, none => false
  | some a, some b => a.pos == b.pos && a.kind == b.kind

/-- The dispatch test of the walk's child loop:
`areNodesEqual(newNodeChild, syntaxList) && areNodesEqual(newNodeChild.getParent(), syntaxListParent)`.
`pnew` is the candidate node whose children are being iterated, i.e. the
parent of `n` in the freshly parsed tree. -/
def dispatchFires (syntaxList : CNode) (syntaxListParent : Option CNode)
    (pnew n : CNode) : Bool :=
  areNodesEqual (some n) (some syntaxList) && areNodesEqual (some pnew) syntaxListParent

mutual

/-- `handleNode` of `insertIntoSyntaxList`: fails when the kinds differ,
otherwise walks the candidate's children against the current node's
children (pulled one by one from the wrapped-children iterator, creating
wrappers lazily), dispatching a pair to `handleSyntaxList` exactly when
the dispatch test fires, and finally replaces the current wrapper's
underlying node with the candidate node.  Errors abort the walk but keep
the registry mutations performed so far, as thrown exceptions do. -/
def handleNode (syntaxList : CNode) (syntaxListParent : Option CNode)
    (childIndex : Int) (insertItemsCount : Nat) :
    CNode → CNode → Registry → Registry × Option MErr
  | .node ck cp ce ccs, .node nk np ne ncs, r =>
    if ck = nk then
      match walkChildren syntaxList syntaxListParent childIndex insertItemsCount
          (.node nk np ne ncs) ccs ncs r with
      | (r1, some e) => (r1, some e)
      | (r1, none) =>
        replaceCompilerNode (.node ck cp ce ccs) (.node nk np ne ncs) r1
    else
      (r, some (.invalidOperation (.node ck cp ce ccs) (.node nk np ne ncs)))
termination_by structural _cur new _r => new

/-- The child loop of `handleNode`: iterates the candidate children
(`news`), pulling the next current child for each one; pulling from an
exhausted current iterator yields `undefined` and the subsequent method
call on it fails.  `pnew` is the candidate parent, used by the dispatch
test. -/
def walkChildren (syntaxList : CNode) (syntaxListParent : Option CNode)
    (childIndex : Int) (insertItemsCount : Nat)
    (pnew : CNode) : CForest → CForest → Registry → Registry × Option MErr
  | _, .nil, r => (r, none)
  | .nil, .cons _ _, r => (r, some .undefinedAccess)
  | .cons c cs, .cons n ns, r =>
    let r1 := getOrCreateWrapper c r
    if dispatchFires syntaxList syntaxListParent pnew n then
      match handleSyntaxList syntaxList syntaxListParent childIndex insertItemsCount c n r1 with
      | (r2, some e) => (r2, some e)
      | (r2, none) =>
        walkChildren syntaxList syntaxListParent childIndex insertItemsCount pnew cs ns r2
    else
      match handleNode syntaxList syntaxListParent childIndex insertItemsCount c n r1 with
      | (r2, some e) => (r2, some e)
      | (r2, none) =>
        walkChildren syntaxList syntaxListParent childIndex insertItemsCount pnew cs ns r2
termination_by structural _curs news _r => news

/-- `handleSyntaxList` of `insertIntoSyntaxList`: runs the splice walk
over the candidate list's children and then replaces the list wrapper's
underlying node with the candidate list node. -/
def handleSyntaxList (syntaxList : CNode) (syntaxListParent : Option CNode)
    (childIndex : Int) (insertItemsCount : Nat) :
    CNode → CNode → Registry → Registry × Option MErr
  | .node ck cp ce ccs, .node nk np ne ncs, r =>
    match spliceWalk syntaxList syntaxListParent childIndex insertItemsCount 0 ccs ncs r with
    | (r1, some e) => (r1, some e)
    | (r1, none) =>
      replaceCompilerNode (.node ck cp ce ccs) (.node nk np ne ncs) r1
termination_by structural _cur new _r => new

/-- The loop of `handleSyntaxList`: candidate children are visited with a
running index `i`; indices inside `[childIndex, childIndex + insertItemsCount)`
are skipped without advancing the pre-edit cursor, every other candidate
child is reconciled with the next pre-edit child via `handleNode`. -/
def spliceWalk (syntaxList : CNode) (syntaxListParent : Option CNode)
    (childIndex : Int) (insertItemsCount : Nat) :
    Nat → CForest → CForest → Registry → Registry × Option MErr
  | _, _, .nil, r => (r, none)
  | i, curs, .cons n ns, r =>
    if childIndex ≤ (i : Int) ∧ (i : Int) < childIndex + insertItemsCount then
      spliceWalk syntaxList syntaxListParent childIndex insertItemsCount (i + 1) curs ns r
    else
      match curs with
      | .nil => (r, some .undefinedAccess)
      | .cons c cs =>
        let r1 := getOrCreateWrapper c r
        match handleNode syntaxList syntaxListParent childIndex insertItemsCount c n r1 with
        | (r2, some e) => (r2, some e)
        | (r2, none) =>
          spliceWalk syntaxList syntaxListParent childIndex insertItemsCount (i + 1) cs ns r2
termination_by structural _i _curs news _r => news

end

mutual

/-- `StraightReplacementNodeHandler.handleNode`: fails when the kinds
differ (naming both constructs), otherwise pairs the current node's
children with candidate children pulled from an iterator and recurses,
and finally replaces the current wrapper's underlying node. -/
def straightHandleNode : CNode → CNode → Registry → Registry × Option MErr
  | .node ck cp ce ccs, .node nk np ne ncs, r =>
    if ck = nk then
      match straightWalk ccs ncs r with
      | (r1, some e) => (r1, some e)
      | (r1, none) =>
        replaceCompilerNode (.node ck cp ce ccs) (.node nk np ne ncs) r1
    else
      (r, some (.invalidOperation (.node ck cp ce ccs) (.node nk np ne ncs)))
termination_by structural cur _new _r => cur

/-- The child loop of `StraightReplacementNodeHandler.handleNode`: iterates
the current node's children, pulling the next candidate child for each via
`NodeHandlerHelper.handleForValues`; after the loop, candidate children
left over are a fatal error.  `handleForValues` itself is not among the
sampled source files; it is modelled from the spec (4.2): it recurses into
each positional pair via the same dispatch, and a missing candidate
counterpart (an `undefined` pull) is a fatal shape mismatch. -/
def straightWalk : CForest → CForest → Registry → Registry × Option MErr
  | .nil, .nil, r => (r, none)
  | .nil, .cons _ _, r => (r, some .newChildrenLeftOver)
  | .cons _ _, .nil, r => (r, some .undefinedAccess)
  | .cons c cs, .cons n ns, r =>
    let r1 := getOrCreateWrapper c r
    match straightHandleNode c n r1 with
    | (r2, some e) => (r2, some e)
    | (r2, none) => straightWalk cs ns r2
termination_by structural curs _news _r => curs

end

/-- JS `Math`-style clamp of an index into `[0, len]`. -/
def jsClamp (len : Nat) (i : Int) : Nat :=
  (max 0 (min i len)).toNat

/-- JS `String.prototype.substring(start, end)` on a list of characters:
both indices are clamped into the string and swapped when out of order. -/
def jsSubstring (t : List Char) (st en : Int) : List Char :=
  let a := jsClamp t.length st
  let b := jsClamp t.length en
  (t.take (max a b)).drop (min a b)

/-- JS `String.prototype.substring(start)` (to the end of the string). -/
def jsSubstringToEnd (t : List Char) (st : Int) : List Char :=
  t.drop (jsClamp t.length st)

/-- Line 23 of `insertIntoSyntaxList`:
`currentText.substring(0, insertPos) + newText + currentText.substring(insertPos)`. -/
def patchedText (currentText : List Char) (insertPos : Int) (newText : List Char) : List Char :=
  jsSubstring currentText 0 insertPos ++ newText ++ jsSubstringToEnd currentText insertPos

/-- `Array.from(syntaxList.getChildren(sourceFile))`: navigating to each
child wraps it, creating wrappers lazily in the file's registry. -/
def wrapForest : CForest → Registry → Registry
  | .nil, r => r
  | .cons c cs, r => wrapForest cs (getOrCreateWrapper c r)

/-- The observable state of one source file: its full text, the root
underlying node of its current tree, and its wrapper registry. -/
structure FileState : Type where
  text : List Char
  root : CNode
  registry : Registry
deriving DecidableEq

/-- `insertIntoSyntaxList(sourceFile, insertPos, newText, syntaxList, childIndex, insertItemsCount)`.
`parse` is the external parser (`createTempSourceFileFromText`), a pure
function of the text.  `syntaxListParent` is `syntaxList.getParent()`
(line 16), supplied explicitly since a plain tree node does not know its
parent.  Wrapping of the syntax list's children (line 15) and of the
parent happens before the child-index range check; the freshly parsed
candidate children are wrapped in the temporary file's own registry scope
(spec 3: each File Wrapper roots its own registry) and therefore do not
appear here.  On an error thrown mid-walk the registry keeps the
mutations performed so far but the file's root and text are unchanged,
because the root wrapper is only replaced by the outermost
`handleNode` after all children succeeded. -/
def insertIntoSyntaxList (parse : List Char → CNode) (fs : FileState)
    (insertPos : Int) (newText : List Char)
    (syntaxList : CNode) (syntaxListParent : Option CNode)
    (childIndex : Int) (insertItemsCount : Nat) : FileState × Option MErr :=
  let syntaxListChildren := syntaxList.children
  let r0 := wrapForest syntaxListChildren fs.registry
  let r1 := match syntaxListParent with
            | some p => getOrCreateWrapper p r0
            | none => r0
  if childIndex < 0 ∨ childIndex > (syntaxListChildren.length : Int) then
    ({ fs with registry := r1 }, some (.argumentError childIndex syntaxListChildren.length))
  else
    let newFileText := patchedText fs.text insertPos newText
    let tempSourceFile := parse newFileText
    match handleNode syntaxList syntaxListParent childIndex insertItemsCount
        fs.root tempSourceFile r1 with
    | (r2, some e) => ({ fs with registry := r2 }, some e)
    | (r2, none) => ({ text := newFileText, root := tempSourceFile, registry := r2 }, none)

/-- Modelled from the spec's words (4.3 step 2, for comparison with the
code's splice walk): the candidate children that actually get paired —
those whose running index, counting from `i`, falls outside the declared
inserted range `[offset, offset + insertedCount)`. -/
def keptFrom (childIndex : Int) (insertItemsCount : Nat) : Nat → CForest → CForest
  | _, .nil => .nil
  | i, .cons n ns =>
    if childIndex ≤ (i : Int) ∧ (i : Int) < childIndex + insertItemsCount then
      keptFrom childIndex insertItemsCount (i + 1) ns
    else
      .cons n (keptFrom childIndex insertItemsCount (i + 1) ns)

/-- Modelled from the spec's words (4.3 step 3, for comparison with the
code's splice walk): each kept candidate child takes the next unconsumed
pre-edit child from the cursor and is reconciled with it via the straight
strategy; both advance. -/
def pairWalk (syntaxList : CNode) (syntaxListParent : Option CNode)
    (childIndex : Int) (insertItemsCount : Nat) :
    CForest → CForest → Registry → Registry × Option MErr
  | _, .nil, r => (r, none)
  | .nil, .cons _ _, r => (r, some .undefinedAccess)
  | .cons c cs, .cons n ns, r =>
    let r1 := getOrCreateWrapper c r
    match handleNode syntaxList syntaxListParent childIndex insertItemsCount c n r1 with
    | (r2, some e) => (r2, some e)
    | (r2, none) => pairWalk syntaxList syntaxListParent childIndex insertItemsCount cs ns r2

/-- Modelled from the spec's words (step 3 of the edit pipeline, for
comparison with the code's dispatch test): a candidate child is delegated
to the splice reconciler exactly when it has the same start position and
kind as the caller-supplied pre-edit Ordered List, and its parent has the
same start position and kind as that list's parent. -/
def specDelegation (syntaxList : CNode) (syntaxListParent : Option CNode)
    (pnew n : CNode) : Prop :=
  n.pos = syntaxList.pos ∧ n.kind = syntaxList.kind ∧
    ∃ P, syntaxListParent = some P ∧ pnew.pos = P.pos ∧ pnew.kind = P.kind

/-- A primitive registry mutation: lazily creating a wrapper during
navigation, or re-keying a wrapper's underlying node. -/
inductive ROp : Type where
  | create (n : CNode)
  | replace (a b : CNode)
deriving DecidableEq

/-- Apply one primitive registry mutation. -/
def applyOp : ROp → Registry → Registry
  | .create n, r => getOrCreateWrapper n r
  | .replace a b, r => rekey a b r

/-- Apply a sequence of primitive registry mutations, in order. -/
def applyOps : List ROp → Registry → Registry
  | [], r => r
  | op :: ops, r => applyOps ops (applyOp op r)

/-- The replacement pairs of a mutation sequence, in order. -/
def replacePairs : List ROp → List (CNode × CNode)
  | [] => []
  | .create _ :: ops => replacePairs ops
  | .replace a b :: ops => (a, b) :: replacePairs ops

/-- Two mutations are independent when their replacement sources differ
and the earlier replacement's target is not the later one's source. -/
def ROp.indep : ROp → ROp → Bool
  | .replace a1 b1, .replace a2 _ => a1 != a2 && b1 != a2
  | _, _ => true

/-- `r2` is reachable from `r` by registry navigation and re-keying —
the only mutations the reconciliation walk performs. -/
inductive Evolves : Registry → Registry → Prop where
  | refl (r : Registry) : Evolves r r
  | create (n : CNode) {r r2 : Registry} (h : Evolves (getOrCreateWrapper n r) r2) : Evolves r r2
  | rek (a b : CNode) {r r2 : Registry} (h : Evolves (rekey a b r) r2) : Evolves r r2

mutual

/-- The tree with every offset shifted right by `d`: the image, after
inserting `d` characters of text, of a construct lying entirely behind the
insertion position. -/
def shiftTree (d : Nat) : CNode → CNode
  | .node k p e cs => .node k (p + d) (e + d) (shiftForest d cs)

/-- `shiftTree` on a forest. -/
def shiftForest (d : Nat) : CForest → CForest
  | .nil => .nil
  | .cons c cs => .cons (shiftTree d c) (shiftForest d cs)

end

/-- The post-edit image of the target Ordered List: same kind and start,
end extended by the inserted text length `d`, and its children spliced —
the first `o` keep their offsets, then the `newKids` (parsed from the
inserted text), then the remaining pre-edit children shifted by `d`. -/
def spliceListNode (d o : Nat) (newKids : CForest) : CNode → CNode
  | .node k p e cs =>
    .node k p (e + d)
      ((CForest.take o cs).append (newKids.append (CForest.map (shiftTree d) (CForest.drop o cs))))

mutual

/-- The post-edit image of the whole pre-edit tree for an insertion of
`newKids` (text length `d`) at child offset `o` of the Ordered List found
at the given path: along the path every node keeps kind and start and has
its end extended by `d`; siblings left of the path keep their offsets,
siblings right of it are shifted by `d`; the node at the end of the path
is spliced per `spliceListNode`. -/
def insertPathNode (d o : Nat) (newKids : CForest) : List Nat → CNode → CNode
  | path, .node k p e cs =>
    match path with
    | [] => spliceListNode d o newKids (.node k p e cs)
    | j :: rest => .node k p (e + d) (insertPathForest d o newKids j rest cs)

/-- `insertPathNode` on the children of a path node: child `j` continues
the path, children before it are unchanged, children after it are
shifted. -/
def insertPathForest (d o : Nat) (newKids : CForest) : Nat → List Nat → CForest → CForest
  | _, _, .nil => .nil
  | 0, rest, .cons c cs => .cons (insertPathNode d o newKids rest c) (shiftForest d cs)
  | jj + 1, rest, .cons c cs => .cons c (insertPathForest d o newKids jj rest cs)

end

mutual

/-- The node reached by following a child-index path from a root. -/
def nodeAtPath : List Nat → CNode → Option CNode
  | [], n => some n
  | j :: rest, .node _ _ _ cs => nodeAtPathF rest cs j

/-- `nodeAtPath` stepping into a forest. -/
def nodeAtPathF : List Nat → CForest → Nat → Option CNode
  | _, .nil, _ => none
  | rest, .cons c _, 0 => nodeAtPath rest c
  | rest, .cons _ cs, jj + 1 => nodeAtPathF rest cs jj

end

mutual

/-- The registry-mutation trace of reconciling an unchanged subtree with
itself: children are wrapped and recursively reconciled left to right and
the node's wrapper is then re-keyed (to the identical node). -/
def idTraceN : CNode → List ROp
  | .node k p e cs => idTraceF cs ++ [.replace (.node k p e cs) (.node k p e cs)]

/-- `idTraceN` over a forest of children. -/
def idTraceF : CForest → List ROp
  | .nil => []
  | .cons c cs => .create c :: (idTraceN c ++ idTraceF cs)

end

mutual

/-- The registry-mutation trace of reconciling a subtree with its image
shifted by `d`. -/
def shTraceN (d : Nat) : CNode → List ROp
  | .node k p e cs =>
    shTraceF d cs ++ [.replace (.node k p e cs) (shiftTree d (.node k p e cs))]

/-- `shTraceN` over a forest of children. -/
def shTraceF (d : Nat) : CForest → List ROp
  | .nil => []
  | .cons c cs => .create c :: (shTraceN d c ++ shTraceF d cs)

end

/-- The trace of the splice walk over the target list's children: the
first `o` pre-edit children are reconciled with themselves, the rest with
their shifted images; the inserted candidate children are skipped and
leave no trace. -/
def listTraceF (d : Nat) : Nat → CForest → List ROp
  | _, .nil => []
  | 0, .cons c cs => (.create c :: shTraceN d c) ++ listTraceF d 0 cs
  | oo + 1, .cons c cs => (.create c :: idTraceN c) ++ listTraceF d oo cs

/-- The trace of `handleSyntaxList` on the target list: the splice walk
over its children followed by re-keying the list wrapper itself to the
spliced candidate list node. -/
def listTrace (d o : Nat) (newKids : CForest) : CNode → List ROp
  | .node k p e cs =>
    listTraceF d o cs ++ [.replace (.node k p e cs) (spliceListNode d o newKids (.node k p e cs))]

mutual

/-- The registry-mutation trace of reconciling the pre-edit tree with its
post-edit image along the path to the target list. -/
def pathTraceN (d o : Nat) (newKids : CForest) : List Nat → CNode → List ROp
  | path, .node k p e cs =>
    match path with
    | [] => listTrace d o newKids (.node k p e cs)
    | j :: rest =>
      pathTraceF d o newKids j rest cs ++
        [.replace (.node k p e cs) (.node k p (e + d) (insertPathForest d o newKids j rest cs))]

/-- `pathTraceN` over the children of a path node. -/
def pathTraceF (d o : Nat) (newKids : CForest) : Nat → List Nat → CForest → List ROp
  | _, _, .nil => []
  | 0, rest, .cons c cs => (.create c :: pathTraceN d o newKids rest c) ++ shTraceF d cs
  | jj + 1, rest, .cons c cs => (.create c :: idTraceN c) ++ pathTraceF d o newKids jj rest cs

end

mutual

/-- Within an unchanged subtree, the dispatch test fires at no
parent/child pair — the splice reconciler is not misapplied there. -/
def noFireIdN (syntaxList : CNode) (syntaxListParent : Option CNode) : CNode → Bool
  | .node k p e cs => noFireIdF syntaxList syntaxListParent (.node k p e cs) cs

/-- `noFireIdN` over children, with `pn` the (unchanged) parent node. -/
def noFireIdF (syntaxList : CNode) (syntaxListParent : Option CNode) :
    CNode → CForest → Bool
  | _, .nil => true
  | pn, .cons c cs =>
    !dispatchFires syntaxList syntaxListParent pn c &&
      noFireIdN syntaxList syntaxListParent c &&
      noFireIdF syntaxList syntaxListParent pn cs

end

mutual

/-- Within a shifted subtree, the dispatch test fires at no parent/child
pair of the shifted image. -/
def noFireShN (syntaxList : CNode) (syntaxListParent : Option CNode) (d : Nat) : CNode → Bool
  | .node k p e cs =>
    noFireShF syntaxList syntaxListParent d (shiftTree d (.node k p e cs)) cs

/-- `noFireShN` over children, with `pn` the already-shifted parent. -/
def noFireShF (syntaxList : CNode) (syntaxListParent : Option CNode) (d : Nat) :
    CNode → CForest → Bool
  | _, .nil => true
  | pn, .cons c cs =>
    !dispatchFires syntaxList syntaxListParent pn (shiftTree d c) &&
      noFireShN syntaxList syntaxListParent d c &&
      noFireShF syntaxList syntaxListParent d pn cs

end

/-- Well-formedness of the splice at the target list's children: the
declared offset is within range (so the walk consumes every pre-edit
child) and no dispatch test fires inside the reconciled children. -/
def listOkF (syntaxList : CNode) (syntaxListParent : Option CNode) (d : Nat) :
    Nat → CForest → Bool
  | 0, .nil => true
  | 0, .cons c cs =>
    noFireShN syntaxList syntaxListParent d c && listOkF syntaxList syntaxListParent d 0 cs
  | _ + 1, .nil => false
  | oo + 1, .cons c cs =>
    noFireIdN syntaxList syntaxListParent c && listOkF syntaxList syntaxListParent d oo cs

/-- `listOkF` at the target list node. -/
def listOk (syntaxList : CNode) (syntaxListParent : Option CNode) (d o : Nat) : CNode → Bool
  | .node _ _ _ cs => listOkF syntaxList syntaxListParent d o cs

mutual

/-- The structural well-formedness of an edit along the path to the
target list: the path exists, the dispatch test fires at the spliced list
(and at its parent) and nowhere else along the way. -/
def pathOk (syntaxList : CNode) (syntaxListParent : Option CNode)
    (d o : Nat) (newKids : CForest) : List Nat → CNode → Bool
  | path, .node k p e cs =>
    match path with
    | [] => listOk syntaxList syntaxListParent d o (.node k p e cs)
    | j :: rest =>
      pathOkF syntaxList syntaxListParent d o newKids
        (.node k p (e + d) (insertPathForest d o newKids j rest cs)) j rest cs

/-- `pathOk` over the children of a path node, with `pn` the post-edit
image of that node (the parent the dispatch test sees). -/
def pathOkF (syntaxList : CNode) (syntaxListParent : Option CNode)
    (d o : Nat) (newKids : CForest) (pn : CNode) : Nat → List Nat → CForest → Bool
  | _, _, .nil => false
  | 0, rest, .cons c cs =>
    (match rest with
     | [] => dispatchFires syntaxList syntaxListParent pn (insertPathNode d o newKids [] c)
     | _ :: _ => !dispatchFires syntaxList syntaxListParent pn (insertPathNode d o newKids rest c)) &&
      pathOk syntaxList syntaxListParent d o newKids rest c &&
      noFireShF syntaxList syntaxListParent d pn cs
  | jj + 1, rest, .cons c cs =>
    !dispatchFires syntaxList syntaxListParent pn c &&
      noFireIdN syntaxList syntaxListParent c &&
      pathOkF syntaxList syntaxListParent d o newKids pn jj rest cs

end

/-! ## Registry basics -/

theorem mem_getOrCreateWrapper {w : Wrapper} {r : Registry} (n : CNode)
    (h : w ∈ r.wrappers) : w ∈ (getOrCreateWrapper n r).wrappers := by
  unfold getOrCreateWrapper
  split
  · exact h
  · exact List.mem_append_left _ h

theorem mem_wrapForest {w : Wrapper} :
    ∀ (cs : CForest) (r : Registry), w ∈ r.wrappers → w ∈ (wrapForest cs r).wrappers
  | .nil, _, h => h
  | .cons c cs, r, h => mem_wrapForest cs _ (mem_getOrCreateWrapper c h)

theorem mem_rekey {w : Wrapper} {r : Registry} (a b : CNode)
    (h : w ∈ r.wrappers) (hne : w.node ≠ a) : w ∈ (rekey a b r).wrappers := by
  unfold rekey
  simp only [List.mem_map]
  refine ⟨w, h, ?_⟩
  simp [hne]

theorem mem_rekey_eq {w : Wrapper} {r : Registry} (a b : CNode)
    (h : w ∈ r.wrappers) (heq : w.node = a) :
    { w with node := b } ∈ (rekey a b r).wrappers := by
  unfold rekey
  simp only [List.mem_map]
  exact ⟨w, h, by simp [heq]⟩

theorem rekey_self (a : CNode) (r : Registry) : rekey a a r = r := by
  unfold rekey
  have : ∀ w : Wrapper, (if w.node = a then { w with node := a } else w) = w := by
    intro w
    split
    · cases w
      simp_all
    · rfl
  simp [this]

/-! ## Text patching (claim C7) -/

theorem jsClamp_of_bounds (len : Nat) (p : Int) (h0 : 0 ≤ p) (h1 : p ≤ (len : Int)) :
    jsClamp len p = p.toNat := by
  unfold jsClamp
  omega

theorem jsClamp_zero (len : Nat) : jsClamp len 0 = 0 := by
  unfold jsClamp
  omega

/-- C7: for every source-file text `t`, insert position `p` with
`0 ≤ p ≤ length t`, and inserted text `s`, the patched text handed to the
external parser equals `t[0:p] ++ s ++ t[p:]`. -/
theorem claim7_patched_text (t : List Char) (p : Int) (s : List Char)
    (h0 : 0 ≤ p) (h1 : p ≤ (t.length : Int)) :
    patchedText t p s = t.take p.toNat ++ s ++ t.drop p.toNat := by
  unfold patchedText jsSubstring jsSubstringToEnd
  rw [jsClamp_of_bounds t.length p h0 h1, jsClamp_zero]
  simp

/-- Witness for C7 at `t = "abcd"`, `p = 2`, `s = "XY"`. -/
theorem claim7_witness :
    (0 : Int) ≤ 2 ∧ (2 : Int) ≤ (List.length ['a', 'b', 'c', 'd'] : Int) ∧
      patchedText ['a', 'b', 'c', 'd'] 2 ['X', 'Y'] = ['a', 'b', 'X', 'Y', 'c', 'd'] :=
  ⟨by decide, by decide, by
    rw [claim7_patched_text ['a', 'b', 'c', 'd'] 2 ['X', 'Y'] (by decide) (by decide)]
    decide⟩

/-! ## Kind mismatch (claim C2) -/

/-- C2: at every node pair reached by the walk outside the declared edit
region, a kind mismatch fails immediately with the distinguishable
`InvalidOperationError` naming the two mismatched constructs — leaving the
registry exactly as it was — in both the in-function walk and the
`StraightReplacementNodeHandler`; and the child loop propagates such an
error unchanged instead of recovering from it. -/
theorem claim2_kind_mismatch_fatal (cur new : CNode) (h : cur.kind ≠ new.kind) :
    (∀ syntaxList syntaxListParent childIndex insertItemsCount r,
      handleNode syntaxList syntaxListParent childIndex insertItemsCount cur new r =
        (r, some (.invalidOperation cur new))) ∧
    (∀ r, straightHandleNode cur new r = (r, some (.invalidOperation cur new))) ∧
    (∀ syntaxList syntaxListParent childIndex insertItemsCount pnew cs ns r r2 e,
      dispatchFires syntaxList syntaxListParent pnew new = false →
      handleNode syntaxList syntaxListParent childIndex insertItemsCount cur new
          (getOrCreateWrapper cur r) = (r2, some e) →
      walkChildren syntaxList syntaxListParent childIndex insertItemsCount pnew
        (.cons cur cs) (.cons new ns) r = (r2, some e)) := by
  obtain ⟨ck, cp, ce, ccs⟩ := cur
  obtain ⟨nk, np, ne, ncs⟩ := new
  simp only [CNode.kind] at h
  refine ⟨?_, ?_, ?_⟩
  · intro L Lpar ci cnt r
    simp [handleNode, h]
  · intro r
    simp [straightHandleNode, h]
  · intro L Lpar ci cnt pnew cs ns r r2 e hd hrun
    simp [walkChildren, hd, hrun]

/-- Witness for C2: a concrete mismatched pair. -/
theorem claim2_witness :
    (CNode.node 3 0 1 .nil).kind ≠ (CNode.node 4 0 1 .nil).kind ∧
      handleNode (.node 9 9 9 .nil) none 0 0 (.node 3 0 1 .nil) (.node 4 0 1 .nil) ⟨[], 0⟩ =
        (⟨[], 0⟩, some (.invalidOperation (.node 3 0 1 .nil) (.node 4 0 1 .nil))) ∧
      straightHandleNode (.node 3 0 1 .nil) (.node 4 0 1 .nil) ⟨[], 0⟩ =
        (⟨[], 0⟩, some (.invalidOperation (.node 3 0 1 .nil) (.node 4 0 1 .nil))) := by
  refine ⟨by decide, ?_, ?_⟩
  · exact (claim2_kind_mismatch_fatal _ _ (by decide)).1 _ none 0 0 _
  · exact (claim2_kind_mismatch_fatal _ _ (by decide)).2.1 _

/-! ## Dispatch condition (claim C8) -/

/-- C8: the Ordered List receiving the change is the caller-supplied
pre-edit list — the walk compares candidates against it rather than
scanning the new tree — and a children pair is delegated to the splice
reconciler exactly when the candidate child and its parent have the same
start position and kind as that list and its parent. -/
theorem claim8_delegation_condition :
    (∀ syntaxList syntaxListParent pnew n,
      dispatchFires syntaxList syntaxListParent pnew n = true ↔
        specDelegation syntaxList syntaxListParent pnew n) ∧
    (∀ syntaxList syntaxListParent childIndex insertItemsCount pnew c cs n ns r,
      dispatchFires syntaxList syntaxListParent pnew n = true →
      walkChildren syntaxList syntaxListParent childIndex insertItemsCount pnew
          (.cons c cs) (.cons n ns) r =
        match handleSyntaxList syntaxList syntaxListParent childIndex insertItemsCount c n
            (getOrCreateWrapper c r) with
        | (r2, some e) => (r2, some e)
        | (r2, none) =>
          walkChildren syntaxList syntaxListParent childIndex insertItemsCount pnew cs ns r2) ∧
    (∀ syntaxList syntaxListParent childIndex insertItemsCount pnew c cs n ns r,
      dispatchFires syntaxList syntaxListParent pnew n = false →
      walkChildren syntaxList syntaxListParent childIndex insertItemsCount pnew
          (.cons c cs) (.cons n ns) r =
        match handleNode syntaxList syntaxListParent childIndex insertItemsCount c n
            (getOrCreateWrapper c r) with
        | (r2, some e) => (r2, some e)
        | (r2, none) =>
          walkChildren syntaxList syntaxListParent childIndex insertItemsCount pnew cs ns r2) := by
  refine ⟨?_, ?_, ?_⟩
  · intro L Lpar pnew n
    cases Lpar with
    | none => simp [dispatchFires, areNodesEqual, specDelegation]
    | some P =>
      simp only [dispatchFires, areNodesEqual, specDelegation, Bool.and_eq_true, beq_iff_eq]
      constructor
      · rintro ⟨⟨h1, h2⟩, h3, h4⟩
        exact ⟨h1, h2, P, rfl, h3, h4⟩
      · rintro ⟨h1, h2, Q, hQ, h3, h4⟩
        cases Option.some.injEq P Q ▸ hQ
        exact ⟨⟨h1, h2⟩, h3, h4⟩
  · intro L Lpar ci cnt pnew c cs n ns r hd
    simp [walkChildren, hd]
  · intro L Lpar ci cnt pnew c cs n ns r hd
    simp [walkChildren, hd]

/-- Witness for C8: the dispatch test on a concrete firing pair. -/
theorem claim8_witness :
    dispatchFires (.node 20 8 10 .nil) (some (.node 10 0 12 .nil))
        (.node 10 0 16 .nil) (.node 20 8 14 .nil) = true ∧
      specDelegation (.node 20 8 10 .nil) (some (.node 10 0 12 .nil))
        (.node 10 0 16 .nil) (.node 20 8 14 .nil) := by
  refine ⟨by decide, ?_⟩
  exact (claim8_delegation_condition.1 _ _ _ _).mp (by decide)

/-! ## Argument check (claim C10) -/

/-- C10: a child index below `0` or above the number of children of the
target syntax list makes `insertIntoSyntaxList` fail with an
`ArgumentError`; the check happens before the patched text is computed and
before the temporary file is parsed (the outcome does not depend on the
parser at all) and before any replacement, so the file's text, its root
and every existing Wrapper are unchanged. -/
theorem claim10_argument_error (syntaxList : CNode) (childIndex : Int)
    (hbad : childIndex < 0 ∨ childIndex > (syntaxList.children.length : Int)) :
    ∀ (parse : List Char → CNode) (fs : FileState) (insertPos : Int) (newText : List Char)
      (syntaxListParent : Option CNode) (insertItemsCount : Nat),
      (insertIntoSyntaxList parse fs insertPos newText syntaxList syntaxListParent
          childIndex insertItemsCount).2 =
        some (.argumentError childIndex syntaxList.children.length) ∧
      (insertIntoSyntaxList parse fs insertPos newText syntaxList syntaxListParent
          childIndex insertItemsCount).1.text = fs.text ∧
      (insertIntoSyntaxList parse fs insertPos newText syntaxList syntaxListParent
          childIndex insertItemsCount).1.root = fs.root ∧
      (∀ w ∈ fs.registry.wrappers,
        w ∈ (insertIntoSyntaxList parse fs insertPos newText syntaxList syntaxListParent
          childIndex insertItemsCount).1.registry.wrappers) ∧
      (∀ parse2 : List Char → CNode,
        insertIntoSyntaxList parse2 fs insertPos newText syntaxList syntaxListParent
            childIndex insertItemsCount =
          insertIntoSyntaxList parse fs insertPos newText syntaxList syntaxListParent
            childIndex insertItemsCount) := by
  intro parse fs insertPos newText syntaxListParent insertItemsCount
  have hmem : ∀ w ∈ fs.registry.wrappers,
      w ∈ (match syntaxListParent with
            | some p => getOrCreateWrapper p (wrapForest syntaxList.children fs.registry)
            | none => wrapForest syntaxList.children fs.registry).wrappers := by
    intro w hw
    cases syntaxListParent with
    | none => exact mem_wrapForest _ _ hw
    | some p => exact mem_getOrCreateWrapper p (mem_wrapForest _ _ hw)
  refine ⟨?_, ?_, ?_, ?_, ?_⟩ <;>
    simp only [insertIntoSyntaxList, if_pos hbad] <;> first
      | rfl
      | exact hmem
      | (intro parse2; rfl)
      | (intro parse2; trivial)

/-- Witness for C10 at a concrete overlarge index. -/
theorem claim10_witness :
    ((2 : Int) < 0 ∨ (2 : Int) > ((CNode.node 5 0 2 (.cons (.node 1 0 1 .nil) .nil)).children.length : Int)) ∧
      (insertIntoSyntaxList (fun _ => .node 0 0 0 .nil)
          ⟨['a'], .node 0 0 1 .nil, ⟨[⟨0, .node 0 0 1 .nil, false⟩], 1⟩⟩ 0 ['b']
          (.node 5 0 2 (.cons (.node 1 0 1 .nil) .nil)) none 2 1).2 =
        some (.argumentError 2 1) := by
  refine ⟨by decide, ?_⟩
  exact (claim10_argument_error _ 2 (by decide) _ _ _ _ _ _).1

/-! ## The splice walk against the spec's description (claim C3) -/

theorem spliceWalk_eq_pairWalk (syntaxList : CNode) (syntaxListParent : Option CNode)
    (childIndex : Int) (insertItemsCount : Nat) :
    ∀ (news : CForest) (i : Nat) (curs : CForest) (r : Registry),
      spliceWalk syntaxList syntaxListParent childIndex insertItemsCount i curs news r =
        pairWalk syntaxList syntaxListParent childIndex insertItemsCount curs
          (keptFrom childIndex insertItemsCount i news) r
  | .nil, i, curs, r => by
    simp [spliceWalk, keptFrom, pairWalk]
  | .cons n ns, i, curs, r => by
    simp only [spliceWalk, keptFrom]
    by_cases h : childIndex ≤ (i : Int) ∧ (i : Int) < childIndex + insertItemsCount
    · simp only [if_pos h]
      exact spliceWalk_eq_pairWalk syntaxList syntaxListParent childIndex insertItemsCount
        ns (i + 1) curs r
    · simp only [if_neg h]
      cases curs with
      | nil => simp [pairWalk]
      | cons c cs =>
        simp only [pairWalk,
          spliceWalk_eq_pairWalk syntaxList syntaxListParent childIndex insertItemsCount
            ns (i + 1)]

/-- C3: the splice walk is exactly the spec's description — candidate
children inside the declared range are skipped without advancing the
pre-edit cursor and without creating a Wrapper, every other candidate
child consumes the next pre-edit child and is reconciled with it via the
straight strategy, and afterwards `replaceUnderlyingNode` is applied to
the Ordered List Wrapper itself with the candidate list node. -/
theorem claim3_splice_walk_refines_spec (syntaxList : CNode) (syntaxListParent : Option CNode)
    (childIndex : Int) (insertItemsCount : Nat) (cur new : CNode) (r : Registry) :
    handleSyntaxList syntaxList syntaxListParent childIndex insertItemsCount cur new r =
      match pairWalk syntaxList syntaxListParent childIndex insertItemsCount cur.children
          (keptFrom childIndex insertItemsCount 0 new.children) r with
      | (r1, some e) => (r1, some e)
      | (r1, none) => replaceCompilerNode cur new r1 := by
  obtain ⟨ck, cp, ce, ccs⟩ := cur
  obtain ⟨nk, np, ne, ncs⟩ := new
  simp only [handleSyntaxList, CNode.children,
    spliceWalk_eq_pairWalk syntaxList syntaxListParent childIndex insertItemsCount ncs 0 ccs r]

/-! ## Missing alignment check (claim C5) -/

/-- C5 counterexample: a splice walk whose pre-edit cursor is left with an
unconsumed child (the declared insertion count 1 does not match the
candidate list, which has the same number of children as the pre-edit
list) completes without any error and still replaces the list — no fatal
alignment error is raised. -/
theorem claim5_counterexample :
    handleSyntaxList (.node 5 0 2 (.cons (.node 1 0 1 .nil) (.cons (.node 2 1 2 .nil) .nil)))
        none 0 1
        (.node 5 0 2 (.cons (.node 1 0 1 .nil) (.cons (.node 2 1 2 .nil) .nil)))
        (.node 5 0 3 (.cons (.node 7 0 1 .nil) (.cons (.node 1 1 2 .nil) .nil)))
        ⟨[⟨0, .node 1 0 1 .nil, false⟩, ⟨1, .node 2 1 2 .nil, false⟩], 2⟩ =
      (⟨[⟨0, .node 1 1 2 .nil, false⟩, ⟨1, .node 2 1 2 .nil, false⟩], 2⟩, none) := by
  decide

/-- C5 as amended: the splice walk performs no post-walk alignment check —
once the candidate's children are exhausted it succeeds immediately,
silently leaving any unconsumed pre-edit children unreconciled, and the
list replacement then proceeds on whatever registry resulted; only a
non-skipped candidate child that finds reconciled the pre-edit cursor
already exhausted fails, with an undefined-access error at that point
rather than a post-walk check. -/
theorem claim5_amended_no_alignment_check (syntaxList : CNode) (syntaxListParent : Option CNode)
    (childIndex : Int) (insertItemsCount : Nat) :
    (∀ (i : Nat) (curs : CForest) (r : Registry),
      spliceWalk syntaxList syntaxListParent childIndex insertItemsCount i curs .nil r =
        (r, none)) ∧
    (∀ (i : Nat) (n : CNode) (ns : CForest) (r : Registry),
      ¬(childIndex ≤ (i : Int) ∧ (i : Int) < childIndex + insertItemsCount) →
      spliceWalk syntaxList syntaxListParent childIndex insertItemsCount i .nil (.cons n ns) r =
        (r, some .undefinedAccess)) ∧
    (∀ (cur new : CNode) (r r1 : Registry),
      spliceWalk syntaxList syntaxListParent childIndex insertItemsCount 0
          cur.children new.children r = (r1, none) →
      handleSyntaxList syntaxList syntaxListParent childIndex insertItemsCount cur new r =
        replaceCompilerNode cur new r1) := by
  refine ⟨?_, ?_, ?_⟩
  · intro i curs r
    simp [spliceWalk]
  · intro i n ns r h
    simp [spliceWalk, h]
  · intro cur new r r1 hsw
    obtain ⟨ck, cp, ce, ccs⟩ := cur
    obtain ⟨nk, np, ne, ncs⟩ := new
    simp only [CNode.children] at hsw
    simp only [handleSyntaxList, hsw]

/-- Witness for the amended C5 on concrete inputs. -/
theorem claim5_witness :
    spliceWalk (.node 5 0 2 .nil) none 0 1 2 (.cons (.node 2 1 2 .nil) .nil) .nil ⟨[], 0⟩ =
        (⟨[], 0⟩, none) ∧
      (¬((0 : Int) ≤ (1 : Nat) ∧ ((1 : Nat) : Int) < 0 + (1 : Nat)) ∧
        spliceWalk (.node 5 0 2 .nil) none 0 1 1 .nil (.cons (.node 2 1 2 .nil) .nil) ⟨[], 0⟩ =
          (⟨[], 0⟩, some .undefinedAccess)) := by
  refine ⟨(claim5_amended_no_alignment_check _ _ _ _).1 _ _ _, by decide, ?_⟩
  exact (claim5_amended_no_alignment_check _ _ _ _).2.1 _ _ _ _ (by decide)

/-! ## Length mismatch directions (claim C6) -/

/-- C6 counterexample: the in-function straight walk of
`insertIntoSyntaxList` with a current node that has one child left over
after pairing (candidate has none) completes without error and replaces
the node — it does not fail fatally in that direction. -/
theorem claim6_counterexample :
    handleNode (.node 9 9 9 .nil) none 0 0
        (.node 0 0 2 (.cons (.node 1 0 1 .nil) .nil)) (.node 0 0 2 .nil) ⟨[], 0⟩ =
      (⟨[], 0⟩, none) := by
  decide

/-- C6 as amended: `StraightReplacementNodeHandler` fails in both
directions — candidate children left over trigger the explicit left-over
error after its loop, and current children left over fail when the
candidate pull comes back undefined — but the in-function straight walk of
`insertIntoSyntaxList` fails only when the candidate runs past the current
children; leftover current children are silently ignored and the current
node is still replaced. -/
theorem claim6_amended_length_mismatch (cur new : CNode) (hk : cur.kind = new.kind) :
    (cur.children = .nil → new.children ≠ .nil →
      ∀ r, straightHandleNode cur new r = (r, some .newChildrenLeftOver)) ∧
    (new.children = .nil → cur.children ≠ .nil →
      ∀ r, straightHandleNode cur new r = (r, some .undefinedAccess)) ∧
    (new.children = .nil →
      ∀ syntaxList syntaxListParent childIndex insertItemsCount r,
        handleNode syntaxList syntaxListParent childIndex insertItemsCount cur new r =
          replaceCompilerNode cur new r) := by
  obtain ⟨ck, cp, ce, ccs⟩ := cur
  obtain ⟨nk, np, ne, ncs⟩ := new
  simp only [CNode.kind] at hk
  simp only [CNode.children]
  refine ⟨?_, ?_, ?_⟩
  · intro hc hn r
    subst hc
    cases ncs with
    | nil => exact absurd rfl hn
    | cons n ns => simp [straightHandleNode, straightWalk, hk]
  · intro hn hc r
    subst hn
    cases ccs with
    | nil => exact absurd rfl hc
    | cons c cs => simp [straightHandleNode, straightWalk, hk]
  · intro hn L Lpar ci cnt r
    subst hn
    simp [handleNode, walkChildren, hk]

/-- Witness for the amended C6 on concrete inputs. -/
theorem claim6_witness :
    straightHandleNode (.node 0 0 2 .nil) (.node 0 0 2 (.cons (.node 1 0 1 .nil) .nil)) ⟨[], 0⟩ =
        (⟨[], 0⟩, some .newChildrenLeftOver) ∧
      straightHandleNode (.node 0 0 2 (.cons (.node 1 0 1 .nil) .nil)) (.node 0 0 2 .nil) ⟨[], 0⟩ =
        (⟨[], 0⟩, some .undefinedAccess) := by
  constructor
  · exact (claim6_amended_length_mismatch _ _ (by decide)).1 (by decide) (by decide) _
  · exact (claim6_amended_length_mismatch _ _ (by decide)).2.1 (by decide) (by decide) _

/-! ## Registry evolution: the walk only navigates and re-keys -/

theorem Evolves.trans {r1 r2 r3 : Registry} (h : Evolves r1 r2) (h2 : Evolves r2 r3) :
    Evolves r1 r3 := by
  induction h with
  | refl _ => exact h2
  | create n _ ih => exact .create n (ih h2)
  | rek a b _ ih => exact .rek a b (ih h2)

theorem evolves_getOrCreate (n : CNode) (r : Registry) :
    Evolves r (getOrCreateWrapper n r) := .create n (.refl _)

theorem evolves_rekey (a b : CNode) (r : Registry) : Evolves r (rekey a b r) :=
  .rek a b (.refl _)

theorem evolves_replaceCompilerNode (a b : CNode) (r : Registry) :
    Evolves r (replaceCompilerNode a b r).1 := by
  unfold replaceCompilerNode
  split
  · exact evolves_rekey a b r
  · exact .refl r

theorem wrapForest_evolves : ∀ (cs : CForest) (r : Registry), Evolves r (wrapForest cs r)
  | .nil, r => .refl r
  | .cons c cs, r => .create c (wrapForest_evolves cs _)

mutual

theorem handleNode_evolves (syntaxList : CNode) (syntaxListParent : Option CNode)
    (childIndex : Int) (insertItemsCount : Nat) :
    ∀ (cur new : CNode) (r : Registry),
      Evolves r (handleNode syntaxList syntaxListParent childIndex insertItemsCount cur new r).1
  | .node ck cp ce ccs, .node nk np ne ncs, r => by
    simp only [handleNode]
    by_cases hk : ck = nk
    · simp only [if_pos hk]
      have hw := walkChildren_evolves syntaxList syntaxListParent childIndex insertItemsCount
        (.node nk np ne ncs) ccs ncs r
      cases hres : walkChildren syntaxList syntaxListParent childIndex insertItemsCount
          (.node nk np ne ncs) ccs ncs r with
      | mk r1 err =>
        rw [hres] at hw
        cases err with
        | some e => simpa using hw
        | none => exact hw.trans (evolves_replaceCompilerNode _ _ r1)
    · simp only [if_neg hk]
      exact .refl r

theorem walkChildren_evolves (syntaxList : CNode) (syntaxListParent : Option CNode)
    (childIndex : Int) (insertItemsCount : Nat) (pnew : CNode) :
    ∀ (curs news : CForest) (r : Registry),
      Evolves r (walkChildren syntaxList syntaxListParent childIndex insertItemsCount
        pnew curs news r).1
  | curs, .nil, r => by
    simp only [walkChildren]
    exact .refl r
  | .nil, .cons n ns, r => by
    simp only [walkChildren]
    exact .refl r
  | .cons c cs, .cons n ns, r => by
    simp only [walkChildren]
    by_cases hd : dispatchFires syntaxList syntaxListParent pnew n = true
    · simp only [hd, if_true]
      have hs := handleSyntaxList_evolves syntaxList syntaxListParent childIndex insertItemsCount
        c n (getOrCreateWrapper c r)
      cases hres : handleSyntaxList syntaxList syntaxListParent childIndex insertItemsCount
          c n (getOrCreateWrapper c r) with
      | mk r2 err =>
        rw [hres] at hs
        cases err with
        | some e =>
          simpa using (evolves_getOrCreate c r).trans hs
        | none =>
          exact ((evolves_getOrCreate c r).trans hs).trans
            (walkChildren_evolves syntaxList syntaxListParent childIndex insertItemsCount
              pnew cs ns r2)
    · simp only [Bool.not_eq_true] at hd
      simp only [hd, Bool.false_eq_true, if_false]
      have hs := handleNode_evolves syntaxList syntaxListParent childIndex insertItemsCount
        c n (getOrCreateWrapper c r)
      cases hres : handleNode syntaxList syntaxListParent childIndex insertItemsCount
          c n (getOrCreateWrapper c r) with
      | mk r2 err =>
        rw [hres] at hs
        cases err with
        | some e =>
          simpa using (evolves_getOrCreate c r).trans hs
        | none =>
          exact ((evolves_getOrCreate c r).trans hs).trans
            (walkChildren_evolves syntaxList syntaxListParent childIndex insertItemsCount
              pnew cs ns r2)

theorem handleSyntaxList_evolves (syntaxList : CNode) (syntaxListParent : Option CNode)
    (childIndex : Int) (insertItemsCount : Nat) :
    ∀ (cur new : CNode) (r : Registry),
      Evolves r (handleSyntaxList syntaxList syntaxListParent childIndex insertItemsCount
        cur new r).1
  | .node ck cp ce ccs, .node nk np ne ncs, r => by
    simp only [handleSyntaxList]
    have hw := spliceWalk_evolves syntaxList syntaxListParent childIndex insertItemsCount
      0 ccs ncs r
    cases hres : spliceWalk syntaxList syntaxListParent childIndex insertItemsCount
        0 ccs ncs r with
    | mk r1 err =>
      rw [hres] at hw
      cases err with
      | some e => simpa using hw
      | none => exact hw.trans (evolves_replaceCompilerNode _ _ r1)

theorem spliceWalk_evolves (syntaxList : CNode) (syntaxListParent : Option CNode)
    (childIndex : Int) (insertItemsCount : Nat) :
    ∀ (i : Nat) (curs news : CForest) (r : Registry),
      Evolves r (spliceWalk syntaxList syntaxListParent childIndex insertItemsCount
        i curs news r).1
  | i, curs, .nil, r => by
    simp only [spliceWalk]
    exact .refl r
  | i, curs, .cons n ns, r => by
    simp only [spliceWalk]
    by_cases hskip : childIndex ≤ (i : Int) ∧ (i : Int) < childIndex + insertItemsCount
    · simp only [if_pos hskip]
      exact spliceWalk_evolves syntaxList syntaxListParent childIndex insertItemsCount
        (i + 1) curs ns r
    · simp only [if_neg hskip]
      split
      · exact .refl r
      rename_i c cs
      have hs := handleNode_evolves syntaxList syntaxListParent childIndex insertItemsCount
        c n (getOrCreateWrapper c r)
      cases hres : handleNode syntaxList syntaxListParent childIndex insertItemsCount
          c n (getOrCreateWrapper c r) with
      | mk r2 err =>
        rw [hres] at hs
        cases err with
        | some e =>
          simpa using (evolves_getOrCreate c r).trans hs
        | none =>
          simpa using ((evolves_getOrCreate c r).trans hs).trans
            (spliceWalk_evolves syntaxList syntaxListParent childIndex insertItemsCount
              (i + 1) cs ns r2)

end

theorem insertIntoSyntaxList_evolves (parse : List Char → CNode) (fs : FileState)
    (insertPos : Int) (newText : List Char)
    (syntaxList : CNode) (syntaxListParent : Option CNode)
    (childIndex : Int) (insertItemsCount : Nat) :
    Evolves fs.registry
      (insertIntoSyntaxList parse fs insertPos newText syntaxList syntaxListParent
        childIndex insertItemsCount).1.registry := by
  simp only [insertIntoSyntaxList]
  generalize hr1 : (match syntaxListParent with
    | some p => getOrCreateWrapper p (wrapForest syntaxList.children fs.registry)
    | none => wrapForest syntaxList.children fs.registry) = r1
  have h1 : Evolves fs.registry r1 := by
    rw [← hr1]
    cases syntaxListParent with
    | none => exact wrapForest_evolves _ _
    | some p => exact (wrapForest_evolves _ _).trans (evolves_getOrCreate _ _)
  by_cases hb : childIndex < 0 ∨ childIndex > (syntaxList.children.length : Int)
  · simp only [if_pos hb]
    exact h1
  · simp only [if_neg hb]
    cases hres : handleNode syntaxList syntaxListParent childIndex insertItemsCount
        fs.root (parse (patchedText fs.text insertPos newText)) r1 with
    | mk r2 err =>
      have h2 := handleNode_evolves syntaxList syntaxListParent childIndex insertItemsCount
        fs.root (parse (patchedText fs.text insertPos newText)) r1
      rw [hres] at h2
      cases err with
      | some e => simpa using h1.trans h2
      | none => simpa using h1.trans h2

theorem noForgotten_getOrCreate (n : CNode) (r : Registry)
    (h : ∀ w ∈ r.wrappers, w.forgotten = false) :
    ∀ w ∈ (getOrCreateWrapper n r).wrappers, w.forgotten = false := by
  unfold getOrCreateWrapper
  split
  · exact h
  · intro w hw
    rcases List.mem_append.mp hw with hw | hw
    · exact h w hw
    · simp only [List.mem_singleton] at hw
      subst hw
      rfl

theorem noForgotten_rekey (a b : CNode) (r : Registry)
    (h : ∀ w ∈ r.wrappers, w.forgotten = false) :
    ∀ w ∈ (rekey a b r).wrappers, w.forgotten = false := by
  unfold rekey
  intro w hw
  simp only [List.mem_map] at hw
  obtain ⟨w0, hw0, hww⟩ := hw
  subst hww
  split
  · exact h w0 hw0
  · exact h w0 hw0

theorem Evolves.noForgotten {r r2 : Registry} (h : Evolves r r2)
    (hf : ∀ w ∈ r.wrappers, w.forgotten = false) :
    ∀ w ∈ r2.wrappers, w.forgotten = false := by
  induction h with
  | refl _ => exact hf
  | create n _ ih => exact ih (noForgotten_getOrCreate n _ hf)
  | rek a b _ ih => exact ih (noForgotten_rekey a b _ hf)

theorem nextId_le_getOrCreate (n : CNode) (r : Registry) :
    r.nextId ≤ (getOrCreateWrapper n r).nextId := by
  unfold getOrCreateWrapper
  split
  · exact le_refl _
  · exact Nat.le_succ _

theorem Evolves.nextId_le {r r2 : Registry} (h : Evolves r r2) : r.nextId ≤ r2.nextId := by
  induction h with
  | refl _ => exact le_refl _
  | create n _ ih => exact (nextId_le_getOrCreate n _).trans ih
  | rek a b _ ih => exact ih

theorem wid_lt_getOrCreate (n : CNode) (r : Registry)
    (h : ∀ w ∈ r.wrappers, w.wid < r.nextId) :
    ∀ w ∈ (getOrCreateWrapper n r).wrappers, w.wid < (getOrCreateWrapper n r).nextId := by
  unfold getOrCreateWrapper
  split
  · exact h
  · intro w hw
    rcases List.mem_append.mp hw with hw | hw
    · exact (h w hw).trans (Nat.lt_succ_self _)
    · simp only [List.mem_singleton] at hw
      subst hw
      exact Nat.lt_succ_self _

theorem wid_lt_rekey (a b : CNode) (r : Registry)
    (h : ∀ w ∈ r.wrappers, w.wid < r.nextId) :
    ∀ w ∈ (rekey a b r).wrappers, w.wid < (rekey a b r).nextId := by
  unfold rekey
  intro w hw
  simp only [List.mem_map] at hw
  obtain ⟨w0, hw0, hww⟩ := hw
  subst hww
  split
  · exact h w0 hw0
  · exact h w0 hw0

theorem Evolves.wid_lt {r r2 : Registry} (h : Evolves r r2)
    (hf : ∀ w ∈ r.wrappers, w.wid < r.nextId) :
    ∀ w ∈ r2.wrappers, w.wid < r2.nextId := by
  induction h with
  | refl _ => exact hf
  | create n _ ih => exact ih (wid_lt_getOrCreate n _ hf)
  | rek a b _ ih => exact ih (wid_lt_rekey a b _ hf)

/-! ## Atomicity and forgetting on failure (claim C4) -/

/-- C4 counterexample: a declared edit whose candidate tree mismatches
(kind difference at the second child) makes the operation fail with the
structural `InvalidOperationError`, but the wrapper of the first child has
already been updated to the new revision while the second has not — the
caller observes a partially-applied edit — and no wrapper has been
forgotten. -/
theorem claim4_counterexample :
    (insertIntoSyntaxList
        (fun _ => .node 0 0 5 (.cons (.node 1 0 2 .nil) (.cons (.node 3 2 3 .nil) .nil)))
        ⟨['a'], .node 0 0 4 (.cons (.node 1 0 1 .nil) (.cons (.node 2 1 2 .nil) .nil)),
          ⟨[⟨0, .node 1 0 1 .nil, false⟩, ⟨1, .node 2 1 2 .nil, false⟩], 2⟩⟩
        0 ['b'] (.node 99 7 9 .nil) none 0 1).2 =
      some (.invalidOperation (.node 2 1 2 .nil) (.node 3 2 3 .nil)) ∧
    (insertIntoSyntaxList
        (fun _ => .node 0 0 5 (.cons (.node 1 0 2 .nil) (.cons (.node 3 2 3 .nil) .nil)))
        ⟨['a'], .node 0 0 4 (.cons (.node 1 0 1 .nil) (.cons (.node 2 1 2 .nil) .nil)),
          ⟨[⟨0, .node 1 0 1 .nil, false⟩, ⟨1, .node 2 1 2 .nil, false⟩], 2⟩⟩
        0 ['b'] (.node 99 7 9 .nil) none 0 1).1.registry.wrappers =
      [⟨0, .node 1 0 2 .nil, false⟩, ⟨1, .node 2 1 2 .nil, false⟩] ∧
    ([⟨0, .node 1 0 2 .nil, false⟩, ⟨1, .node 2 1 2 .nil, false⟩] : List Wrapper) ≠
      ([⟨0, .node 1 0 1 .nil, false⟩, ⟨1, .node 2 1 2 .nil, false⟩] : List Wrapper) ∧
    (∀ w ∈ (insertIntoSyntaxList
        (fun _ => .node 0 0 5 (.cons (.node 1 0 2 .nil) (.cons (.node 3 2 3 .nil) .nil)))
        ⟨['a'], .node 0 0 4 (.cons (.node 1 0 1 .nil) (.cons (.node 2 1 2 .nil) .nil)),
          ⟨[⟨0, .node 1 0 1 .nil, false⟩, ⟨1, .node 2 1 2 .nil, false⟩], 2⟩⟩
        0 ['b'] (.node 99 7 9 .nil) none 0 1).1.registry.wrappers, w.forgotten = false) := by
  decide

/-- C4 as amended: a structural mismatch that the walk detects makes the
operation fail with a structural error, but the engine performs no
forgetting whatsoever — every wrapper of the resulting registry is still
unforgotten — and wrappers reconciled before the failure keep their new
revisions, so a partially-applied edit state remains observable to the
caller on failure. -/
theorem claim4_amended_no_forget (fs : FileState)
    (hf : ∀ w ∈ fs.registry.wrappers, w.forgotten = false) :
    ∀ (parse : List Char → CNode) (insertPos : Int) (newText : List Char)
      (syntaxList : CNode) (syntaxListParent : Option CNode)
      (childIndex : Int) (insertItemsCount : Nat),
      ∀ w ∈ (insertIntoSyntaxList parse fs insertPos newText syntaxList syntaxListParent
          childIndex insertItemsCount).1.registry.wrappers, w.forgotten = false := by
  intro parse insertPos newText syntaxList syntaxListParent childIndex insertItemsCount
  exact (insertIntoSyntaxList_evolves parse fs insertPos newText syntaxList syntaxListParent
    childIndex insertItemsCount).noForgotten hf

/-- Witness for the amended C4 on the counterexample's concrete edit. -/
theorem claim4_witness :
    (∀ w ∈ [(⟨0, .node 1 0 1 .nil, false⟩ : Wrapper), ⟨1, .node 2 1 2 .nil, false⟩],
      w.forgotten = false) ∧
    (∀ w ∈ (insertIntoSyntaxList
        (fun _ => .node 0 0 5 (.cons (.node 1 0 2 .nil) (.cons (.node 3 2 3 .nil) .nil)))
        ⟨['a'], .node 0 0 4 (.cons (.node 1 0 1 .nil) (.cons (.node 2 1 2 .nil) .nil)),
          ⟨[⟨0, .node 1 0 1 .nil, false⟩, ⟨1, .node 2 1 2 .nil, false⟩], 2⟩⟩
        0 ['b'] (.node 99 7 9 .nil) none 0 1).1.registry.wrappers, w.forgotten = false) :=
  ⟨by decide,
    claim4_amended_no_forget
      ⟨['a'], .node 0 0 4 (.cons (.node 1 0 1 .nil) (.cons (.node 2 1 2 .nil) .nil)),
        ⟨[⟨0, .node 1 0 1 .nil, false⟩, ⟨1, .node 2 1 2 .nil, false⟩], 2⟩⟩
      (by decide) _ 0 ['b'] (.node 99 7 9 .nil) none 0 1⟩

/-! ## The no-op edit (claim C9) -/

theorem replaceCompilerNode_self (a : CNode) (r : Registry) :
    replaceCompilerNode a a r = (r, none) := by
  unfold replaceCompilerNode
  rw [if_pos rfl, rekey_self]

mutual

theorem handleNode_self (syntaxList : CNode) (syntaxListParent : Option CNode)
    (childIndex : Int) :
    ∀ (c : CNode) (r : Registry),
      (handleNode syntaxList syntaxListParent childIndex 0 c c r).2 = none ∧
      ∀ w ∈ r.wrappers,
        w ∈ (handleNode syntaxList syntaxListParent childIndex 0 c c r).1.wrappers
  | .node k p e cs, r => by
    simp only [handleNode, if_pos rfl]
    obtain ⟨h2, hmem⟩ := walkChildren_self syntaxList syntaxListParent childIndex
      (.node k p e cs) cs r
    cases hres : walkChildren syntaxList syntaxListParent childIndex 0
        (.node k p e cs) cs cs r with
    | mk r1 err =>
      rw [hres] at h2 hmem
      simp only at h2
      subst h2
      simp only [replaceCompilerNode_self]
      exact ⟨by simp, hmem⟩

theorem walkChildren_self (syntaxList : CNode) (syntaxListParent : Option CNode)
    (childIndex : Int) (pnew : CNode) :
    ∀ (cs : CForest) (r : Registry),
      (walkChildren syntaxList syntaxListParent childIndex 0 pnew cs cs r).2 = none ∧
      ∀ w ∈ r.wrappers,
        w ∈ (walkChildren syntaxList syntaxListParent childIndex 0 pnew cs cs r).1.wrappers
  | .nil, r => by
    simp only [walkChildren]
    exact ⟨by trivial, fun w hw => hw⟩
  | .cons c cs, r => by
    simp only [walkChildren]
    by_cases hd : dispatchFires syntaxList syntaxListParent pnew c = true
    · simp only [hd, if_true]
      obtain ⟨h2, hmem⟩ := handleSyntaxList_self syntaxList syntaxListParent childIndex
        c (getOrCreateWrapper c r)
      cases hres : handleSyntaxList syntaxList syntaxListParent childIndex 0
          c c (getOrCreateWrapper c r) with
      | mk r2 err =>
        rw [hres] at h2 hmem
        simp only at h2
        subst h2
        obtain ⟨h3, hmem3⟩ := walkChildren_self syntaxList syntaxListParent childIndex
          pnew cs r2
        exact ⟨by simp [h3], fun w hw => hmem3 w (hmem w (mem_getOrCreateWrapper c hw))⟩
    · simp only [Bool.not_eq_true] at hd
      simp only [hd, Bool.false_eq_true, if_false]
      obtain ⟨h2, hmem⟩ := handleNode_self syntaxList syntaxListParent childIndex
        c (getOrCreateWrapper c r)
      cases hres : handleNode syntaxList syntaxListParent childIndex 0
          c c (getOrCreateWrapper c r) with
      | mk r2 err =>
        rw [hres] at h2 hmem
        simp only at h2
        subst h2
        obtain ⟨h3, hmem3⟩ := walkChildren_self syntaxList syntaxListParent childIndex
          pnew cs r2
        exact ⟨by simp [h3], fun w hw => hmem3 w (hmem w (mem_getOrCreateWrapper c hw))⟩

theorem handleSyntaxList_self (syntaxList : CNode) (syntaxListParent : Option CNode)
    (childIndex : Int) :
    ∀ (c : CNode) (r : Registry),
      (handleSyntaxList syntaxList syntaxListParent childIndex 0 c c r).2 = none ∧
      ∀ w ∈ r.wrappers,
        w ∈ (handleSyntaxList syntaxList syntaxListParent childIndex 0 c c r).1.wrappers
  | .node k p e cs, r => by
    simp only [handleSyntaxList]
    obtain ⟨h2, hmem⟩ := spliceWalk_self syntaxList syntaxListParent childIndex 0 cs r
    cases hres : spliceWalk syntaxList syntaxListParent childIndex 0 0 cs cs r with
    | mk r1 err =>
      rw [hres] at h2 hmem
      simp only at h2
      subst h2
      simp only [replaceCompilerNode_self]
      exact ⟨by simp, hmem⟩

theorem spliceWalk_self (syntaxList : CNode) (syntaxListParent : Option CNode)
    (childIndex : Int) :
    ∀ (i : Nat) (cs : CForest) (r : Registry),
      (spliceWalk syntaxList syntaxListParent childIndex 0 i cs cs r).2 = none ∧
      ∀ w ∈ r.wrappers,
        w ∈ (spliceWalk syntaxList syntaxListParent childIndex 0 i cs cs r).1.wrappers
  | i, .nil, r => by
    simp only [spliceWalk]
    exact ⟨by trivial, fun w hw => hw⟩
  | i, .cons c cs, r => by
    have hskip : ¬(childIndex ≤ (i : Int) ∧ (i : Int) < childIndex + (0 : Int)) := by
      omega
    simp only [spliceWalk, Nat.cast_zero, if_neg hskip]
    obtain ⟨h2, hmem⟩ := handleNode_self syntaxList syntaxListParent childIndex
      c (getOrCreateWrapper c r)
    cases hres : handleNode syntaxList syntaxListParent childIndex 0
        c c (getOrCreateWrapper c r) with
    | mk r2 err =>
      rw [hres] at h2 hmem
      simp only at h2
      subst h2
      obtain ⟨h3, hmem3⟩ := spliceWalk_self syntaxList syntaxListParent childIndex
        (i + 1) cs r2
      exact ⟨by simp [h3], fun w hw => hmem3 w (hmem w (mem_getOrCreateWrapper c hw))⟩

end

theorem patchedText_nil (t : List Char) (p : Int) : patchedText t p [] = t := by
  unfold patchedText jsSubstring jsSubstringToEnd
  rw [jsClamp_zero]
  simp

/-- C9: inserting an empty string as a zero-item edit at a valid child
index is a no-op — the operation succeeds, the file's text and root are
unchanged, and every previously existing Wrapper is still present,
entirely unchanged (same identity, same current node, not forgotten). -/
theorem claim9_noop_insertion (parse : List Char → CNode) (fs : FileState)
    (insertPos : Int) (syntaxList : CNode) (syntaxListParent : Option CNode)
    (childIndex : Int)
    (hparse : parse fs.text = fs.root)
    (h0 : 0 ≤ childIndex) (h1 : childIndex ≤ (syntaxList.children.length : Int)) :
    (insertIntoSyntaxList parse fs insertPos [] syntaxList syntaxListParent childIndex 0).2 =
        none ∧
    (insertIntoSyntaxList parse fs insertPos [] syntaxList syntaxListParent
        childIndex 0).1.text = fs.text ∧
    (insertIntoSyntaxList parse fs insertPos [] syntaxList syntaxListParent
        childIndex 0).1.root = fs.root ∧
    ∀ w ∈ fs.registry.wrappers,
      w ∈ (insertIntoSyntaxList parse fs insertPos [] syntaxList syntaxListParent
        childIndex 0).1.registry.wrappers := by
  have hb : ¬(childIndex < 0 ∨ childIndex > (syntaxList.children.length : Int)) := by
    omega
  simp only [insertIntoSyntaxList, if_neg hb, patchedText_nil, hparse]
  generalize hr1 : (match syntaxListParent with
    | some p => getOrCreateWrapper p (wrapForest syntaxList.children fs.registry)
    | none => wrapForest syntaxList.children fs.registry) = r1
  have hmem1 : ∀ w ∈ fs.registry.wrappers, w ∈ r1.wrappers := by
    rw [← hr1]
    intro w hw
    cases syntaxListParent with
    | none => exact mem_wrapForest _ _ hw
    | some p => exact mem_getOrCreateWrapper p (mem_wrapForest _ _ hw)
  obtain ⟨h2, hmem⟩ := handleNode_self syntaxList syntaxListParent childIndex fs.root r1
  cases hres : handleNode syntaxList syntaxListParent childIndex 0 fs.root fs.root r1 with
  | mk r2 err =>
    rw [hres] at h2 hmem
    simp only at h2
    subst h2
    exact ⟨by simp, by simp, by simp, fun w hw => by simpa using hmem w (hmem1 w hw)⟩

/-- Witness for C9 on a concrete file and list. -/
theorem claim9_witness :
    ((fun _ : List Char => CNode.node 0 0 2 (.cons (.node 5 0 2 (.cons (.node 1 0 1 .nil) .nil)) .nil))
        ['a', 'b'] = CNode.node 0 0 2 (.cons (.node 5 0 2 (.cons (.node 1 0 1 .nil) .nil)) .nil)) ∧
    (0 : Int) ≤ 1 ∧ (1 : Int) ≤ (((CNode.node 5 0 2 (.cons (.node 1 0 1 .nil) .nil)).children.length : Nat) : Int) ∧
    (insertIntoSyntaxList
        (fun _ => .node 0 0 2 (.cons (.node 5 0 2 (.cons (.node 1 0 1 .nil) .nil)) .nil))
        ⟨['a', 'b'], .node 0 0 2 (.cons (.node 5 0 2 (.cons (.node 1 0 1 .nil) .nil)) .nil),
          ⟨[⟨0, .node 1 0 1 .nil, false⟩], 1⟩⟩
        1 [] (.node 5 0 2 (.cons (.node 1 0 1 .nil) .nil)) (some (.node 0 0 2 (.cons (.node 5 0 2 (.cons (.node 1 0 1 .nil) .nil)) .nil))) 1 0).2 = none := by
  refine ⟨rfl, by decide, by decide, ?_⟩
  exact (claim9_noop_insertion _ _ 1 _ _ 1 rfl (by decide) (by decide)).1

/-! ## Forest and trace basics for the insertion theorem (claim C1) -/

theorem CForest.get?_append_left : ∀ (xs ys : CForest) (i : Nat), i < xs.length →
    (xs.append ys).get? i = xs.get? i
  | .nil, _, _, h => by simp [CForest.length] at h
  | .cons x xs, ys, 0, _ => rfl
  | .cons x xs, ys, i + 1, h => by
    simp only [CForest.length] at h
    exact CForest.get?_append_left xs ys i (by omega)

theorem CForest.get?_append_right : ∀ (xs ys : CForest) (i : Nat),
    (xs.append ys).get? (xs.length + i) = ys.get? i
  | .nil, ys, i => by simp [CForest.length, CForest.append, Nat.zero_add]
  | .cons x xs, ys, i => by
    have : (CForest.cons x xs).length + i = (xs.length + i) + 1 := by
      simp [CForest.length]
      omega
    rw [this]
    exact CForest.get?_append_right xs ys i

theorem CForest.length_take : ∀ (o : Nat) (cs : CForest), o ≤ cs.length →
    (CForest.take o cs).length = o
  | 0, _, _ => rfl
  | o + 1, .nil, h => by simp [CForest.length] at h
  | o + 1, .cons c cs, h => by
    simp only [CForest.length] at h ⊢
    simp only [CForest.take, CForest.length, CForest.length_take o cs (by omega)]

theorem CForest.get?_take : ∀ (o i : Nat) (cs : CForest), i < o →
    (CForest.take o cs).get? i = cs.get? i
  | 0, i, cs, h => by omega
  | o + 1, i, .nil, h => by simp [CForest.take]
  | o + 1, 0, .cons c cs, h => rfl
  | o + 1, i + 1, .cons c cs, h => by
    simp only [CForest.take, CForest.get?]
    exact CForest.get?_take o i cs (by omega)

theorem CForest.get?_drop : ∀ (o i : Nat) (cs : CForest),
    (CForest.drop o cs).get? i = cs.get? (o + i)
  | 0, i, cs => by simp [CForest.drop, Nat.zero_add]
  | o + 1, i, .nil => by simp [CForest.drop, CForest.get?]
  | o + 1, i, .cons c cs => by
    simp only [CForest.drop]
    have : o + 1 + i = (o + i) + 1 := by omega
    rw [this]
    simp only [CForest.get?]
    exact CForest.get?_drop o i cs

theorem CForest.get?_map (f : CNode → CNode) : ∀ (cs : CForest) (i : Nat),
    (CForest.map f cs).get? i = (cs.get? i).map f
  | .nil, _ => rfl
  | .cons c cs, 0 => rfl
  | .cons c cs, i + 1 => CForest.get?_map f cs i

theorem CForest.get?_lt_length : ∀ (cs : CForest) (i : Nat) (c : CNode),
    cs.get? i = some c → i < cs.length
  | .nil, i, c, h => by simp [CForest.get?] at h
  | .cons x xs, 0, c, h => by simp [CForest.length]
  | .cons x xs, i + 1, c, h => by
    simp only [CForest.length]
    have := CForest.get?_lt_length xs i c h
    omega

theorem shiftTree_kind (d : Nat) : ∀ c : CNode, (shiftTree d c).kind = c.kind
  | .node k p e cs => rfl

theorem shiftTree_pos (d : Nat) : ∀ c : CNode, (shiftTree d c).pos = c.pos + d
  | .node k p e cs => rfl

theorem shiftTree_endPos (d : Nat) : ∀ c : CNode, (shiftTree d c).endPos = c.endPos + d
  | .node k p e cs => rfl

theorem spliceListNode_kind (d o : Nat) (kids : CForest) :
    ∀ c : CNode, (spliceListNode d o kids c).kind = c.kind
  | .node k p e cs => rfl

theorem spliceListNode_pos (d o : Nat) (kids : CForest) :
    ∀ c : CNode, (spliceListNode d o kids c).pos = c.pos
  | .node k p e cs => rfl

theorem spliceListNode_endPos (d o : Nat) (kids : CForest) :
    ∀ c : CNode, (spliceListNode d o kids c).endPos = c.endPos + d
  | .node k p e cs => rfl

theorem applyOps_append : ∀ (ops1 ops2 : List ROp) (r : Registry),
    applyOps (ops1 ++ ops2) r = applyOps ops2 (applyOps ops1 r)
  | [], ops2, r => rfl
  | op :: ops1, ops2, r => by
    simp only [List.cons_append, applyOps]
    exact applyOps_append ops1 ops2 _

theorem replacePairs_append : ∀ (ops1 ops2 : List ROp),
    replacePairs (ops1 ++ ops2) = replacePairs ops1 ++ replacePairs ops2
  | [], ops2 => rfl
  | .create n :: ops1, ops2 => by
    simp only [List.cons_append, replacePairs]
    exact replacePairs_append ops1 ops2
  | .replace a b :: ops1, ops2 => by
    simp only [List.cons_append, replacePairs, List.cons.injEq, true_and]
    exact replacePairs_append ops1 ops2

theorem mem_replacePairs : ∀ (ops : List ROp) (a b : CNode),
    (a, b) ∈ replacePairs ops ↔ ROp.replace a b ∈ ops
  | [], a, b => by simp [replacePairs]
  | .create n :: ops, a, b => by
    simp only [replacePairs, List.mem_cons]
    rw [mem_replacePairs ops a b]
    simp
  | .replace x y :: ops, a, b => by
    simp only [replacePairs, List.mem_cons]
    rw [mem_replacePairs ops a b]
    constructor
    · rintro (h | h)
      · left
        simp only [Prod.mk.injEq] at h
        rw [h.1, h.2]
      · right
        exact h
    · rintro (h | h)
      · left
        cases h
        rfl
      · right
        exact h

mutual

theorem replacePairs_idTraceN : ∀ (c : CNode) (x y : CNode),
    (x, y) ∈ replacePairs (idTraceN c) → y = x
  | .node k p e cs, x, y => fun h => by
    rw [idTraceN, replacePairs_append] at h
    rcases List.mem_append.mp h with h | h
    · exact replacePairs_idTraceF cs x y h
    · simp only [replacePairs, List.mem_singleton, Prod.mk.injEq] at h
      rw [h.2, h.1]

theorem replacePairs_idTraceF : ∀ (cs : CForest) (x y : CNode),
    (x, y) ∈ replacePairs (idTraceF cs) → y = x
  | .nil, x, y => fun h => by simp [idTraceF, replacePairs] at h
  | .cons c cs, x, y => fun h => by
    rw [idTraceF] at h
    simp only [replacePairs] at h
    rw [replacePairs_append] at h
    rcases List.mem_append.mp h with h | h
    · exact replacePairs_idTraceN c x y h
    · exact replacePairs_idTraceF cs x y h

end

mutual

theorem replacePairs_shTraceN (d : Nat) : ∀ (c : CNode) (x y : CNode),
    (x, y) ∈ replacePairs (shTraceN d c) → y = shiftTree d x
  | .node k p e cs, x, y => fun h => by
    rw [shTraceN, replacePairs_append] at h
    rcases List.mem_append.mp h with h | h
    · exact replacePairs_shTraceF d cs x y h
    · simp only [replacePairs, List.mem_singleton, Prod.mk.injEq] at h
      rw [h.2, h.1]

theorem replacePairs_shTraceF (d : Nat) : ∀ (cs : CForest) (x y : CNode),
    (x, y) ∈ replacePairs (shTraceF d cs) → y = shiftTree d x
  | .nil, x, y => fun h => by simp [shTraceF, replacePairs] at h
  | .cons c cs, x, y => fun h => by
    rw [shTraceF] at h
    simp only [replacePairs] at h
    rw [replacePairs_append] at h
    rcases List.mem_append.mp h with h | h
    · exact replacePairs_shTraceN d c x y h
    · exact replacePairs_shTraceF d cs x y h

end

theorem replacePairs_listTraceF (d : Nat) : ∀ (oo : Nat) (cs : CForest) (x y : CNode),
    (x, y) ∈ replacePairs (listTraceF d oo cs) → y = x ∨ y = shiftTree d x
  | _, .nil, x, y => fun h => by simp [listTraceF, replacePairs] at h
  | 0, .cons c cs, x, y => fun h => by
    rw [listTraceF] at h
    simp only [List.cons_append, replacePairs, List.append_eq] at h
    rw [replacePairs_append] at h
    rcases List.mem_append.mp h with h | h
    · exact Or.inr (replacePairs_shTraceN d c x y h)
    · exact replacePairs_listTraceF d 0 cs x y h
  | oo + 1, .cons c cs, x, y => fun h => by
    rw [listTraceF] at h
    simp only [List.cons_append, replacePairs, List.append_eq] at h
    rw [replacePairs_append] at h
    rcases List.mem_append.mp h with h | h
    · exact Or.inl (replacePairs_idTraceN c x y h)
    · exact replacePairs_listTraceF d oo cs x y h

theorem replacePairs_listTrace (d o : Nat) (kids : CForest) :
    ∀ (c : CNode) (x y : CNode),
    (x, y) ∈ replacePairs (listTrace d o kids c) →
      y = x ∨ y = shiftTree d x ∨
        (y.kind = x.kind ∧ y.pos = x.pos ∧ y.endPos = x.endPos + d)
  | .node k p e cs, x, y => fun h => by
    rw [listTrace, replacePairs_append] at h
    rcases List.mem_append.mp h with h | h
    · rcases replacePairs_listTraceF d o cs x y h with h | h
      · exact Or.inl h
      · exact Or.inr (Or.inl h)
    · simp only [replacePairs, List.mem_singleton, Prod.mk.injEq] at h
      refine Or.inr (Or.inr ?_)
      rw [h.2, ← h.1]
      exact ⟨spliceListNode_kind d o kids _, spliceListNode_pos d o kids _,
        spliceListNode_endPos d o kids _⟩

theorem pathTraceN_nil (d o : Nat) (kids : CForest) :
    ∀ c : CNode, pathTraceN d o kids [] c = listTrace d o kids c
  | .node k p e cs => rfl

theorem pathOk_nil (syntaxList : CNode) (syntaxListParent : Option CNode)
    (d o : Nat) (kids : CForest) :
    ∀ c : CNode,
      pathOk syntaxList syntaxListParent d o kids [] c =
        listOk syntaxList syntaxListParent d o c
  | .node k p e cs => rfl

mutual

theorem replacePairs_pathTraceN (d o : Nat) (kids : CForest) :
    ∀ (path : List Nat) (c : CNode) (x y : CNode),
    (x, y) ∈ replacePairs (pathTraceN d o kids path c) →
      y = x ∨ y = shiftTree d x ∨
        (y.kind = x.kind ∧ y.pos = x.pos ∧ y.endPos = x.endPos + d)
  | [], .node k p e cs, x, y => fun h => by
    simp only [pathTraceN] at h
    exact replacePairs_listTrace d o kids _ x y h
  | j :: rest, .node k p e cs, x, y => fun h => by
    simp only [pathTraceN] at h
    rw [replacePairs_append] at h
    rcases List.mem_append.mp h with h | h
    · exact replacePairs_pathTraceF d o kids j rest cs x y h
    · simp only [replacePairs, List.mem_singleton, Prod.mk.injEq] at h
      refine Or.inr (Or.inr ?_)
      obtain ⟨hx, hy⟩ := h
      subst hx
      subst hy
      exact ⟨rfl, rfl, rfl⟩

theorem replacePairs_pathTraceF (d o : Nat) (kids : CForest) :
    ∀ (j : Nat) (rest : List Nat) (cs : CForest) (x y : CNode),
    (x, y) ∈ replacePairs (pathTraceF d o kids j rest cs) →
      y = x ∨ y = shiftTree d x ∨
        (y.kind = x.kind ∧ y.pos = x.pos ∧ y.endPos = x.endPos + d)
  | _, _, .nil, x, y => fun h => by simp [pathTraceF, replacePairs] at h
  | 0, rest, .cons c cs, x, y => fun h => by
    rw [pathTraceF] at h
    simp only [List.cons_append, replacePairs, List.append_eq] at h
    rw [replacePairs_append] at h
    rcases List.mem_append.mp h with h | h
    · exact replacePairs_pathTraceN d o kids rest c x y h
    · exact Or.inr (Or.inl (replacePairs_shTraceF d cs x y h))
  | jj + 1, rest, .cons c cs, x, y => fun h => by
    rw [pathTraceF] at h
    simp only [List.cons_append, replacePairs, List.append_eq] at h
    rw [replacePairs_append] at h
    rcases List.mem_append.mp h with h | h
    · exact Or.inl (replacePairs_idTraceN c x y h)
    · exact replacePairs_pathTraceF d o kids jj rest cs x y h

end

theorem replace_self_mem_idTraceN : ∀ c : CNode, ROp.replace c c ∈ idTraceN c
  | .node k p e cs => by
    rw [idTraceN]
    exact List.mem_append_right _ (List.mem_singleton.mpr rfl)

theorem replace_shift_mem_shTraceN (d : Nat) :
    ∀ c : CNode, ROp.replace c (shiftTree d c) ∈ shTraceN d c
  | .node k p e cs => by
    rw [shTraceN]
    exact List.mem_append_right _ (List.mem_singleton.mpr rfl)

theorem mem_listTraceF_of_get? (d : Nat) : ∀ (oo : Nat) (cs : CForest) (jj : Nat) (c : CNode),
    cs.get? jj = some c →
    (jj < oo → ROp.replace c c ∈ listTraceF d oo cs) ∧
    (oo ≤ jj → ROp.replace c (shiftTree d c) ∈ listTraceF d oo cs)
  | oo, .nil, jj, c, h => by simp [CForest.get?] at h
  | 0, .cons x xs, 0, c, h => by
    simp only [CForest.get?, Option.some.injEq] at h
    subst h
    refine ⟨fun hlt => by omega, fun _ => ?_⟩
    rw [listTraceF]
    exact List.mem_append_left _ (List.mem_cons_of_mem _ (replace_shift_mem_shTraceN d _))
  | 0, .cons x xs, jj + 1, c, h => by
    simp only [CForest.get?] at h
    refine ⟨fun hlt => by omega, fun _ => ?_⟩
    rw [listTraceF]
    exact List.mem_append_right _
      ((mem_listTraceF_of_get? d 0 xs jj c h).2 (by omega))
  | oo + 1, .cons x xs, 0, c, h => by
    simp only [CForest.get?, Option.some.injEq] at h
    subst h
    refine ⟨fun _ => ?_, fun hle => by omega⟩
    rw [listTraceF]
    exact List.mem_append_left _ (List.mem_cons_of_mem _ (replace_self_mem_idTraceN _))
  | oo + 1, .cons x xs, jj + 1, c, h => by
    simp only [CForest.get?] at h
    have ih := mem_listTraceF_of_get? d oo xs jj c h
    refine ⟨fun hlt => ?_, fun hle => ?_⟩
    · rw [listTraceF]
      exact List.mem_append_right _ (ih.1 (by omega))
    · rw [listTraceF]
      exact List.mem_append_right _ (ih.2 (by omega))

mutual

theorem listTrace_sub_pathTraceN (d o : Nat) (kids : CForest) :
    ∀ (j : Nat) (rest : List Nat) (c Lt : CNode),
    nodeAtPath (j :: rest) c = some Lt →
    ∀ op ∈ listTrace d o kids Lt, op ∈ pathTraceN d o kids (j :: rest) c
  | j, rest, .node k p e cs, Lt, hpath, op, hop => by
    rw [nodeAtPath] at hpath
    simp only [pathTraceN]
    refine List.mem_append_left _ ?_
    exact listTrace_sub_pathTraceF d o kids j rest cs Lt hpath op hop

theorem listTrace_sub_pathTraceF (d o : Nat) (kids : CForest) :
    ∀ (j : Nat) (rest : List Nat) (cs : CForest) (Lt : CNode),
    nodeAtPathF rest cs j = some Lt →
    ∀ op ∈ listTrace d o kids Lt, op ∈ pathTraceF d o kids j rest cs
  | j, rest, .nil, Lt, hpath, op, hop => by simp [nodeAtPathF] at hpath
  | 0, [], .cons c cs, Lt, hpath, op, hop => by
    rw [nodeAtPathF, nodeAtPath] at hpath
    cases hpath
    rw [pathTraceF]
    refine List.mem_append_left _ (List.mem_cons_of_mem _ ?_)
    rw [pathTraceN_nil]
    exact hop
  | 0, j2 :: rest2, .cons c cs, Lt, hpath, op, hop => by
    rw [nodeAtPathF] at hpath
    rw [pathTraceF]
    refine List.mem_append_left _ (List.mem_cons_of_mem _ ?_)
    exact listTrace_sub_pathTraceN d o kids j2 rest2 c Lt hpath op hop
  | jj + 1, rest, .cons c cs, Lt, hpath, op, hop => by
    rw [nodeAtPathF] at hpath
    rw [pathTraceF]
    exact List.mem_append_right _
      (listTrace_sub_pathTraceF d o kids jj rest cs Lt hpath op hop)

end

theorem listOkF_le_length (syntaxList : CNode) (syntaxListParent : Option CNode) (d : Nat) :
    ∀ (oo : Nat) (cs : CForest),
    listOkF syntaxList syntaxListParent d oo cs = true → oo ≤ cs.length
  | 0, cs, _ => Nat.zero_le _
  | oo + 1, .nil, h => by simp [listOkF] at h
  | oo + 1, .cons c cs, h => by
    rw [listOkF] at h
    simp only [Bool.and_eq_true] at h
    have := listOkF_le_length syntaxList syntaxListParent d oo cs h.2
    simp only [CForest.length]
    omega

mutual

theorem pathOk_listOk (syntaxList : CNode) (syntaxListParent : Option CNode)
    (d o : Nat) (kids : CForest) :
    ∀ (j : Nat) (rest : List Nat) (c Lt : CNode),
    nodeAtPath (j :: rest) c = some Lt →
    pathOk syntaxList syntaxListParent d o kids (j :: rest) c = true →
    listOk syntaxList syntaxListParent d o Lt = true
  | j, rest, .node k p e cs, Lt, hpath, hok => by
    rw [nodeAtPath] at hpath
    simp only [pathOk] at hok
    exact pathOk_listOkF syntaxList syntaxListParent d o kids j rest cs Lt _ hpath hok

theorem pathOk_listOkF (syntaxList : CNode) (syntaxListParent : Option CNode)
    (d o : Nat) (kids : CForest) :
    ∀ (j : Nat) (rest : List Nat) (cs : CForest) (Lt pn : CNode),
    nodeAtPathF rest cs j = some Lt →
    pathOkF syntaxList syntaxListParent d o kids pn j rest cs = true →
    listOk syntaxList syntaxListParent d o Lt = true
  | j, rest, .nil, Lt, pn, hpath, hok => by simp [nodeAtPathF] at hpath
  | 0, [], .cons c cs, Lt, pn, hpath, hok => by
    rw [nodeAtPathF, nodeAtPath] at hpath
    cases hpath
    rw [pathOkF] at hok
    simp only [Bool.and_eq_true] at hok
    have h2 := hok.1.2
    rw [pathOk_nil] at h2
    exact h2
  | 0, j2 :: rest2, .cons c cs, Lt, pn, hpath, hok => by
    rw [nodeAtPathF] at hpath
    rw [pathOkF] at hok
    simp only [Bool.and_eq_true] at hok
    exact pathOk_listOk syntaxList syntaxListParent d o kids j2 rest2 c Lt hpath hok.1.2
  | jj + 1, rest, .cons c cs, Lt, pn, hpath, hok => by
    rw [nodeAtPathF] at hpath
    rw [pathOkF] at hok
    simp only [Bool.and_eq_true] at hok
    exact pathOk_listOkF syntaxList syntaxListParent d o kids jj rest cs Lt pn hpath hok.2

end

/-! ## Effect of a mutation trace on the registry -/

theorem applyOps_preserve : ∀ (ops : List ROp) (r : Registry) (w : Wrapper),
    w ∈ r.wrappers → (∀ a b : CNode, ROp.replace a b ∈ ops → w.node ≠ a) →
    w ∈ (applyOps ops r).wrappers
  | [], _, _, hw, _ => hw
  | .create n :: ops, r, w, hw, hno =>
    applyOps_preserve ops _ w (mem_getOrCreateWrapper n hw)
      (fun a b hm => hno a b (List.mem_cons_of_mem _ hm))
  | .replace a b :: ops, r, w, hw, hno =>
    applyOps_preserve ops _ w
      (mem_rekey a b hw (hno a b (List.mem_cons_self _ _)))
      (fun a2 b2 hm => hno a2 b2 (List.mem_cons_of_mem _ hm))

theorem applyOps_replace : ∀ (ops : List ROp) (r : Registry) (w : Wrapper) (a b : CNode),
    w ∈ r.wrappers → w.node = a → ROp.replace a b ∈ ops →
    ops.Pairwise (fun x y => ROp.indep x y = true) →
    { w with node := b } ∈ (applyOps ops r).wrappers
  | [], _, _, _, _, _, _, hmem, _ => absurd hmem (List.not_mem_nil _)
  | .create n :: ops, r, w, a, b, hw, hn, hmem, hp => by
    have hmem2 : ROp.replace a b ∈ ops := by
      rcases List.mem_cons.mp hmem with h | h
      · cases h
      · exact h
    exact applyOps_replace ops _ w a b (mem_getOrCreateWrapper n hw) hn hmem2 hp.of_cons
  | .replace a2 b2 :: ops, r, w, a, b, hw, hn, hmem, hp => by
    by_cases haa : a2 = a
    · subst haa
      have hb : b2 = b := by
        rcases List.mem_cons.mp hmem with h | h
        · cases h
          rfl
        · have hind := (List.pairwise_cons.mp hp).1 _ h
          simp [ROp.indep] at hind
      subst hb
      have hw2 := mem_rekey_eq a2 b2 hw hn
      refine applyOps_preserve ops _ _ hw2 ?_
      intro a3 b3 hm3 heq
      have hind := (List.pairwise_cons.mp hp).1 _ hm3
      simp only [ROp.indep, bne_iff_ne, ne_eq, Bool.and_eq_true, decide_eq_true_eq] at hind
      exact hind.2 heq
    · have hmem2 : ROp.replace a b ∈ ops := by
        rcases List.mem_cons.mp hmem with h | h
        · cases h
          exact absurd rfl haa
        · exact h
      refine applyOps_replace ops _ w a b ?_ hn hmem2 hp.of_cons
      refine mem_rekey a2 b2 hw ?_
      rw [hn]
      exact fun hh => haa hh.symm

/-! ## Run lemmas: the walk computes the canonical trace -/

mutual

theorem run_idN (syntaxList : CNode) (syntaxListParent : Option CNode) :
    ∀ (c : CNode) (childIndex : Int) (insertItemsCount : Nat) (r : Registry),
    noFireIdN syntaxList syntaxListParent c = true →
    handleNode syntaxList syntaxListParent childIndex insertItemsCount c c r =
      (applyOps (idTraceN c) r, none)
  | .node k p e cs, ci, cnt, r, hok => by
    rw [noFireIdN] at hok
    rw [handleNode, if_pos rfl,
      run_idF syntaxList syntaxListParent cs (.node k p e cs) ci cnt r hok]
    simp only [idTraceN, applyOps_append, applyOps, applyOp, replaceCompilerNode_self,
      rekey_self]

theorem run_idF (syntaxList : CNode) (syntaxListParent : Option CNode) :
    ∀ (cs : CForest) (pn : CNode) (childIndex : Int) (insertItemsCount : Nat) (r : Registry),
    noFireIdF syntaxList syntaxListParent pn cs = true →
    walkChildren syntaxList syntaxListParent childIndex insertItemsCount pn cs cs r =
      (applyOps (idTraceF cs) r, none)
  | .nil, pn, ci, cnt, r, _ => by
    simp only [walkChildren, idTraceF, applyOps]
  | .cons c cs, pn, ci, cnt, r, hok => by
    rw [noFireIdF] at hok
    simp only [Bool.and_eq_true, Bool.not_eq_true'] at hok
    obtain ⟨⟨h1, h2⟩, h3⟩ := hok
    simp only [walkChildren, h1, Bool.false_eq_true, if_false,
      run_idN syntaxList syntaxListParent c ci cnt (getOrCreateWrapper c r) h2,
      run_idF syntaxList syntaxListParent cs pn ci cnt _ h3]
    simp only [idTraceF, applyOps, applyOp, applyOps_append, List.cons_append]

end

mutual

theorem run_shN (syntaxList : CNode) (syntaxListParent : Option CNode) (d : Nat) :
    ∀ (c : CNode) (childIndex : Int) (insertItemsCount : Nat) (r : Registry),
    noFireShN syntaxList syntaxListParent d c = true →
    handleNode syntaxList syntaxListParent childIndex insertItemsCount c (shiftTree d c) r =
      (applyOps (shTraceN d c) r, none)
  | .node k p e cs, ci, cnt, r, hok => by
    rw [noFireShN] at hok
    rw [shiftTree] at hok ⊢
    rw [handleNode, if_pos rfl,
      run_shF syntaxList syntaxListParent d cs (.node k (p + d) (e + d) (shiftForest d cs))
        ci cnt r hok]
    simp only [shTraceN, applyOps_append, applyOps, applyOp, shiftTree]
    rw [replaceCompilerNode]
    simp [CNode.kind, rekey]

theorem run_shF (syntaxList : CNode) (syntaxListParent : Option CNode) (d : Nat) :
    ∀ (cs : CForest) (pn : CNode) (childIndex : Int) (insertItemsCount : Nat) (r : Registry),
    noFireShF syntaxList syntaxListParent d pn cs = true →
    walkChildren syntaxList syntaxListParent childIndex insertItemsCount pn
        cs (shiftForest d cs) r =
      (applyOps (shTraceF d cs) r, none)
  | .nil, pn, ci, cnt, r, _ => by
    simp only [shiftForest, walkChildren, shTraceF, applyOps]
  | .cons c cs, pn, ci, cnt, r, hok => by
    rw [noFireShF] at hok
    simp only [Bool.and_eq_true, Bool.not_eq_true'] at hok
    obtain ⟨⟨h1, h2⟩, h3⟩ := hok
    rw [shiftForest]
    simp only [walkChildren, h1, Bool.false_eq_true, if_false,
      run_shN syntaxList syntaxListParent d c ci cnt (getOrCreateWrapper c r) h2,
      run_shF syntaxList syntaxListParent d cs pn ci cnt _ h3]
    simp only [shTraceF, applyOps, applyOp, applyOps_append, List.cons_append]

end

theorem run_skip (syntaxList : CNode) (syntaxListParent : Option CNode) (o cnt : Nat) :
    ∀ (ks : CForest) (i : Nat) (curs rest : CForest) (r : Registry),
    o ≤ i → i + ks.length ≤ o + cnt →
    spliceWalk syntaxList syntaxListParent (o : Int) cnt i curs (ks.append rest) r =
      spliceWalk syntaxList syntaxListParent (o : Int) cnt (i + ks.length) curs rest r
  | .nil, i, curs, rest, r, _, _ => by
    simp [CForest.append, CForest.length]
  | .cons kk ks, i, curs, rest, r, h1, h2 => by
    simp only [CForest.length] at h2 ⊢
    rw [CForest.append]
    have hskip : ((o : Int) ≤ (i : Int) ∧ (i : Int) < (o : Int) + (cnt : Int)) := by
      omega
    simp only [spliceWalk, if_pos hskip]
    rw [run_skip syntaxList syntaxListParent o cnt ks (i + 1) curs rest r (by omega) (by omega)]
    congr 1
    omega

theorem run_shiftStage (syntaxList : CNode) (syntaxListParent : Option CNode)
    (d o cnt : Nat) :
    ∀ (cs : CForest) (i : Nat) (r : Registry),
    o + cnt ≤ i →
    listOkF syntaxList syntaxListParent d 0 cs = true →
    spliceWalk syntaxList syntaxListParent (o : Int) cnt i cs
        (CForest.map (shiftTree d) cs) r =
      (applyOps (listTraceF d 0 cs) r, none)
  | .nil, i, r, _, _ => by
    simp [CForest.map, spliceWalk, listTraceF, applyOps]
  | .cons c cs, i, r, hi, hok => by
    rw [listOkF] at hok
    simp only [Bool.and_eq_true] at hok
    rw [CForest.map]
    have hns : ¬((o : Int) ≤ (i : Int) ∧ (i : Int) < (o : Int) + (cnt : Int)) := by
      push_cast
      omega
    simp only [spliceWalk, if_neg hns,
      run_shN syntaxList syntaxListParent d c (o : Int) cnt (getOrCreateWrapper c r) hok.1,
      run_shiftStage syntaxList syntaxListParent d o cnt cs (i + 1) _ (by omega) hok.2]
    simp only [listTraceF, applyOps_append, applyOps, applyOp, List.cons_append,
      List.append_eq]

theorem run_splice (syntaxList : CNode) (syntaxListParent : Option CNode)
    (d o : Nat) (kids : CForest) :
    ∀ (oo : Nat) (cs : CForest) (i : Nat) (r : Registry),
    listOkF syntaxList syntaxListParent d oo cs = true → i + oo = o →
    spliceWalk syntaxList syntaxListParent (o : Int) kids.length i cs
        ((CForest.take oo cs).append
          (kids.append (CForest.map (shiftTree d) (CForest.drop oo cs)))) r =
      (applyOps (listTraceF d oo cs) r, none)
  | 0, cs, i, r, hok, hi => by
    simp only [CForest.take, CForest.drop, CForest.append]
    rw [run_skip syntaxList syntaxListParent o kids.length kids i cs
      (CForest.map (shiftTree d) cs) r (by omega) (by omega)]
    exact run_shiftStage syntaxList syntaxListParent d o kids.length cs
      (i + kids.length) r (by omega) hok
  | oo + 1, .nil, i, r, hok, hi => by
    simp [listOkF] at hok
  | oo + 1, .cons c cs, i, r, hok, hi => by
    rw [listOkF] at hok
    simp only [Bool.and_eq_true] at hok
    simp only [CForest.take, CForest.drop, CForest.append]
    have hns : ¬((o : Int) ≤ (i : Int) ∧ (i : Int) < (o : Int) + ((kids.length : Nat) : Int)) := by
      push_cast
      omega
    simp only [spliceWalk, if_neg hns,
      run_idN syntaxList syntaxListParent c (o : Int) kids.length (getOrCreateWrapper c r)
        hok.1,
      run_splice syntaxList syntaxListParent d o kids oo cs (i + 1) _ hok.2 (by omega)]
    simp only [listTraceF, applyOps_append, applyOps, applyOp, List.cons_append,
      List.append_eq]

theorem run_list (syntaxList : CNode) (syntaxListParent : Option CNode)
    (d o : Nat) (kids : CForest) :
    ∀ (c : CNode) (r : Registry),
    listOk syntaxList syntaxListParent d o c = true →
    handleSyntaxList syntaxList syntaxListParent (o : Int) kids.length c
        (spliceListNode d o kids c) r =
      (applyOps (listTrace d o kids c) r, none)
  | .node k p e cs, r, hok => by
    rw [listOk] at hok
    rw [spliceListNode, handleSyntaxList,
      run_splice syntaxList syntaxListParent d o kids o cs 0 r hok (by omega)]
    simp only [listTrace, applyOps_append, applyOps, applyOp, spliceListNode]
    rw [replaceCompilerNode]
    simp [CNode.kind, rekey]

theorem insertPathNode_nil (d o : Nat) (kids : CForest) :
    ∀ c : CNode, insertPathNode d o kids [] c = spliceListNode d o kids c
  | .node k p e cs => rfl

theorem insertPathNode_cons (d o : Nat) (kids : CForest) (j : Nat) (rest : List Nat)
    (k p e : Nat) (cs : CForest) :
    insertPathNode d o kids (j :: rest) (.node k p e cs) =
      .node k p (e + d) (insertPathForest d o kids j rest cs) := rfl

theorem insertPathForest_zero (d o : Nat) (kids : CForest) (rest : List Nat)
    (c : CNode) (cs : CForest) :
    insertPathForest d o kids 0 rest (.cons c cs) =
      .cons (insertPathNode d o kids rest c) (shiftForest d cs) := rfl

theorem insertPathForest_succ (d o : Nat) (kids : CForest) (jj : Nat) (rest : List Nat)
    (c : CNode) (cs : CForest) :
    insertPathForest d o kids (jj + 1) rest (.cons c cs) =
      .cons c (insertPathForest d o kids jj rest cs) := rfl

theorem pathTraceN_cons (d o : Nat) (kids : CForest) (j : Nat) (rest : List Nat)
    (k p e : Nat) (cs : CForest) :
    pathTraceN d o kids (j :: rest) (.node k p e cs) =
      pathTraceF d o kids j rest cs ++
        [.replace (.node k p e cs) (.node k p (e + d) (insertPathForest d o kids j rest cs))] :=
  rfl

theorem pathTraceF_zero (d o : Nat) (kids : CForest) (rest : List Nat)
    (c : CNode) (cs : CForest) :
    pathTraceF d o kids 0 rest (.cons c cs) =
      (.create c :: pathTraceN d o kids rest c) ++ shTraceF d cs := rfl

theorem pathTraceF_succ (d o : Nat) (kids : CForest) (jj : Nat) (rest : List Nat)
    (c : CNode) (cs : CForest) :
    pathTraceF d o kids (jj + 1) rest (.cons c cs) =
      (.create c :: idTraceN c) ++ pathTraceF d o kids jj rest cs := rfl

theorem pathOk_cons (syntaxList : CNode) (syntaxListParent : Option CNode)
    (d o : Nat) (kids : CForest) (j : Nat) (rest : List Nat)
    (k p e : Nat) (cs : CForest) :
    pathOk syntaxList syntaxListParent d o kids (j :: rest) (.node k p e cs) =
      pathOkF syntaxList syntaxListParent d o kids
        (.node k p (e + d) (insertPathForest d o kids j rest cs)) j rest cs := rfl

theorem pathOkF_nil (syntaxList : CNode) (syntaxListParent : Option CNode)
    (d o : Nat) (kids : CForest) (pn : CNode) (j : Nat) (rest : List Nat) :
    pathOkF syntaxList syntaxListParent d o kids pn j rest .nil = false := by
  cases j with
  | zero =>
    cases rest with
    | nil => rfl
    | cons j2 rest2 => rfl
  | succ jj => rfl

theorem pathOkF_zero_nil (syntaxList : CNode) (syntaxListParent : Option CNode)
    (d o : Nat) (kids : CForest) (pn : CNode) (c : CNode) (cs : CForest) :
    pathOkF syntaxList syntaxListParent d o kids pn 0 [] (.cons c cs) =
      (dispatchFires syntaxList syntaxListParent pn (insertPathNode d o kids [] c) &&
        pathOk syntaxList syntaxListParent d o kids [] c &&
        noFireShF syntaxList syntaxListParent d pn cs) := rfl

theorem pathOkF_zero_cons (syntaxList : CNode) (syntaxListParent : Option CNode)
    (d o : Nat) (kids : CForest) (pn : CNode) (j2 : Nat) (rest2 : List Nat)
    (c : CNode) (cs : CForest) :
    pathOkF syntaxList syntaxListParent d o kids pn 0 (j2 :: rest2) (.cons c cs) =
      (!dispatchFires syntaxList syntaxListParent pn
          (insertPathNode d o kids (j2 :: rest2) c) &&
        pathOk syntaxList syntaxListParent d o kids (j2 :: rest2) c &&
        noFireShF syntaxList syntaxListParent d pn cs) := rfl

theorem pathOkF_succ (syntaxList : CNode) (syntaxListParent : Option CNode)
    (d o : Nat) (kids : CForest) (pn : CNode) (jj : Nat) (rest : List Nat)
    (c : CNode) (cs : CForest) :
    pathOkF syntaxList syntaxListParent d o kids pn (jj + 1) rest (.cons c cs) =
      (!dispatchFires syntaxList syntaxListParent pn c &&
        noFireIdN syntaxList syntaxListParent c &&
        pathOkF syntaxList syntaxListParent d o kids pn jj rest cs) := rfl

mutual

theorem run_pathN (syntaxList : CNode) (syntaxListParent : Option CNode)
    (d o : Nat) (kids : CForest) :
    ∀ (j : Nat) (rest : List Nat) (c : CNode) (r : Registry),
    pathOk syntaxList syntaxListParent d o kids (j :: rest) c = true →
    handleNode syntaxList syntaxListParent (o : Int) kids.length c
        (insertPathNode d o kids (j :: rest) c) r =
      (applyOps (pathTraceN d o kids (j :: rest) c) r, none)
  | j, rest, .node k p e cs, r, hok => by
    rw [pathOk_cons] at hok
    rw [insertPathNode_cons, handleNode, if_pos rfl,
      run_pathF syntaxList syntaxListParent d o kids j rest cs _ r hok]
    rw [pathTraceN_cons]
    simp only [applyOps_append, applyOps, applyOp]
    rw [replaceCompilerNode]
    simp [CNode.kind, rekey]

theorem run_pathF (syntaxList : CNode) (syntaxListParent : Option CNode)
    (d o : Nat) (kids : CForest) :
    ∀ (j : Nat) (rest : List Nat) (cs : CForest) (pn : CNode) (r : Registry),
    pathOkF syntaxList syntaxListParent d o kids pn j rest cs = true →
    walkChildren syntaxList syntaxListParent (o : Int) kids.length pn cs
        (insertPathForest d o kids j rest cs) r =
      (applyOps (pathTraceF d o kids j rest cs) r, none)
  | j, rest, .nil, pn, r, hok => by
    rw [pathOkF_nil] at hok
    cases hok
  | 0, [], .cons c cs, pn, r, hok => by
    rw [pathOkF_zero_nil] at hok
    simp only [Bool.and_eq_true] at hok
    have hlist : listOk syntaxList syntaxListParent d o c = true := by
      rw [← pathOk_nil]
      exact hok.1.2
    have hfire : dispatchFires syntaxList syntaxListParent pn (spliceListNode d o kids c) =
        true := by
      rw [← insertPathNode_nil d o kids c]
      exact hok.1.1
    rw [insertPathForest_zero]
    simp only [walkChildren, hfire, if_true, insertPathNode_nil,
      run_list syntaxList syntaxListParent d o kids c _ hlist,
      run_shF syntaxList syntaxListParent d cs pn (o : Int) kids.length _ hok.2]
    rw [pathTraceF_zero, pathTraceN_nil]
    simp only [applyOps_append, applyOps, applyOp, List.cons_append, List.append_eq]
  | 0, j2 :: rest2, .cons c cs, pn, r, hok => by
    rw [pathOkF_zero_cons] at hok
    simp only [Bool.and_eq_true, Bool.not_eq_true'] at hok
    rw [insertPathForest_zero]
    simp only [walkChildren, hok.1.1, Bool.false_eq_true, if_false,
      run_pathN syntaxList syntaxListParent d o kids j2 rest2 c _ hok.1.2,
      run_shF syntaxList syntaxListParent d cs pn (o : Int) kids.length _ hok.2]
    rw [pathTraceF_zero]
    simp only [applyOps_append, applyOps, applyOp, List.cons_append, List.append_eq]
  | jj + 1, rest, .cons c cs, pn, r, hok => by
    rw [pathOkF_succ] at hok
    simp only [Bool.and_eq_true, Bool.not_eq_true'] at hok
    rw [insertPathForest_succ]
    simp only [walkChildren, hok.1.1, Bool.false_eq_true, if_false,
      run_idN syntaxList syntaxListParent c (o : Int) kids.length _ hok.1.2,
      run_pathF syntaxList syntaxListParent d o kids jj rest cs pn _ hok.2]
    rw [pathTraceF_succ]
    simp only [applyOps_append, applyOps, applyOp, List.cons_append, List.append_eq]

end

theorem listOk_le_length (syntaxList : CNode) (syntaxListParent : Option CNode)
    (d o : Nat) : ∀ c : CNode,
    listOk syntaxList syntaxListParent d o c = true → o ≤ c.children.length
  | .node k p e cs, h => by
    rw [listOk] at h
    exact listOkF_le_length syntaxList syntaxListParent d o cs h

theorem spliceListNode_children (d o : Nat) (kids : CForest) : ∀ c : CNode,
    (spliceListNode d o kids c).children =
      (CForest.take o c.children).append
        (kids.append (CForest.map (shiftTree d) (CForest.drop o c.children)))
  | .node k p e cs => rfl

theorem applyOps_evolves : ∀ (ops : List ROp) (r : Registry), Evolves r (applyOps ops r)
  | [], r => .refl r
  | .create n :: ops, r => .create n (applyOps_evolves ops _)
  | .replace a b :: ops, r => .rek a b (applyOps_evolves ops _)

theorem getOrCreateWrapper_not_found (n : CNode) (r : Registry)
    (h : ∀ w ∈ r.wrappers, w.node ≠ n) :
    (getOrCreateWrapper n r).wrappers = r.wrappers ++ [⟨r.nextId, n, false⟩] := by
  unfold getOrCreateWrapper
  have hany : (r.wrappers.any fun w => w.node == n) = false := by
    rw [List.any_eq_false]
    intro w hw
    simp only [beq_iff_eq]
    exact h w hw
  rw [hany]
  simp

/-- The full run of `insertIntoSyntaxList` on a well-declared insertion:
the reparse of the patched text yields the spliced-and-shifted image of the
pre-edit tree, the walk succeeds, and the resulting registry is exactly the
canonical trace applied to the wrapped pre-edit registry. -/
theorem insertIntoSyntaxList_run (parse : List Char → CNode) (fs : FileState)
    (insertPos : Int) (newText : List Char)
    (syntaxList P : CNode) (d o : Nat) (kids : CForest) (j : Nat) (rest : List Nat)
    (hpath : nodeAtPath (j :: rest) fs.root = some syntaxList)
    (hok : pathOk syntaxList (some P) d o kids (j :: rest) fs.root = true)
    (hparse : parse (patchedText fs.text insertPos newText) =
      insertPathNode d o kids (j :: rest) fs.root) :
    insertIntoSyntaxList parse fs insertPos newText syntaxList (some P)
        (o : Int) kids.length =
      ({ text := patchedText fs.text insertPos newText,
         root := insertPathNode d o kids (j :: rest) fs.root,
         registry := applyOps (pathTraceN d o kids (j :: rest) fs.root)
           (getOrCreateWrapper P (wrapForest syntaxList.children fs.registry)) }, none) := by
  have hlen : o ≤ syntaxList.children.length :=
    listOk_le_length syntaxList (some P) d o syntaxList
      (pathOk_listOk syntaxList (some P) d o kids j rest fs.root syntaxList hpath hok)
  have hb : ¬((o : Int) < 0 ∨ (o : Int) > (syntaxList.children.length : Int)) := by
    push_cast
    omega
  simp only [insertIntoSyntaxList, if_neg hb, hparse,
    run_pathN syntaxList (some P) d o kids j rest fs.root _ hok]

/-- C1: for an edit inserting `kids.length` new sibling constructs at
child offset `o` of the target Ordered List (the node at the given path of
the pre-edit tree), with inserted text of length `d` so that the reparse
yields exactly the spliced-and-shifted image of the pre-edit tree, and
with the dispatch test firing exactly at the spliced list
(`pathOk`) and an interference-free trace (`Pairwise ROp.indep`):
the edit succeeds; every pre-existing child of the list below the offset
stays at its index with its original Wrapper untouched; every child at or
above the offset moves up by the insertion count, its Wrapper keeping its
identity and now holding the shifted image; the inserted children occupy
exactly the indices `[o, o + kids.length)` and navigation there creates
brand-new Wrappers whose identities never belonged to any pre-edit
Wrapper; and every Wrapper on any construct of the pre-edit tree is not
forgotten and now holds its post-edit counterpart — same kind, offsets
shifted by at most the inserted text length. -/
theorem claim1_insertion_isolation_identity_preservation
    (parse : List Char → CNode) (fs : FileState)
    (insertPos : Int) (newText : List Char)
    (syntaxList P : CNode) (d o : Nat) (kids : CForest) (j : Nat) (rest : List Nat)
    (hd : d = newText.length)
    (hpath : nodeAtPath (j :: rest) fs.root = some syntaxList)
    (hok : pathOk syntaxList (some P) d o kids (j :: rest) fs.root = true)
    (hparse : parse (patchedText fs.text insertPos newText) =
      insertPathNode d o kids (j :: rest) fs.root)
    (hpair : (pathTraceN d o kids (j :: rest) fs.root).Pairwise
      (fun x y => ROp.indep x y = true)) :
    (insertIntoSyntaxList parse fs insertPos newText syntaxList (some P)
        (o : Int) kids.length).2 = none ∧
    (insertIntoSyntaxList parse fs insertPos newText syntaxList (some P)
        (o : Int) kids.length).1.root = insertPathNode d o kids (j :: rest) fs.root ∧
    (∀ (jj : Nat) (c : CNode), syntaxList.children.get? jj = some c → jj < o →
      (spliceListNode d o kids syntaxList).children.get? jj = some c ∧
      ∀ w ∈ fs.registry.wrappers, w.node = c →
        w ∈ (insertIntoSyntaxList parse fs insertPos newText syntaxList (some P)
          (o : Int) kids.length).1.registry.wrappers) ∧
    (∀ (jj : Nat) (c : CNode), syntaxList.children.get? jj = some c → o ≤ jj →
      (spliceListNode d o kids syntaxList).children.get? (jj + kids.length) =
        some (shiftTree d c) ∧
      ∀ w ∈ fs.registry.wrappers, w.node = c →
        { w with node := shiftTree d c } ∈
          (insertIntoSyntaxList parse fs insertPos newText syntaxList (some P)
            (o : Int) kids.length).1.registry.wrappers) ∧
    (∀ (i : Nat) (nk : CNode), kids.get? i = some nk →
      (spliceListNode d o kids syntaxList).children.get? (o + i) = some nk ∧
      ((∀ w ∈ (insertIntoSyntaxList parse fs insertPos newText syntaxList (some P)
          (o : Int) kids.length).1.registry.wrappers, w.node ≠ nk) →
       (∀ w ∈ fs.registry.wrappers, w.wid < fs.registry.nextId) →
       ∃ w2 : Wrapper,
         (getOrCreateWrapper nk
           (insertIntoSyntaxList parse fs insertPos newText syntaxList (some P)
             (o : Int) kids.length).1.registry).wrappers =
           (insertIntoSyntaxList parse fs insertPos newText syntaxList (some P)
             (o : Int) kids.length).1.registry.wrappers ++ [w2] ∧
         w2.node = nk ∧ w2.forgotten = false ∧
         ∀ w ∈ fs.registry.wrappers, w.wid ≠ w2.wid)) ∧
    (∀ x y : CNode, (x, y) ∈ replacePairs (pathTraceN d o kids (j :: rest) fs.root) →
      y.kind = x.kind ∧ (y.pos = x.pos ∨ y.pos = x.pos + d) ∧
      (y.endPos = x.endPos ∨ y.endPos = x.endPos + d) ∧
      ∀ w ∈ fs.registry.wrappers, w.node = x →
        { w with node := y } ∈
          (insertIntoSyntaxList parse fs insertPos newText syntaxList (some P)
            (o : Int) kids.length).1.registry.wrappers ∧
        ({ w with node := y } : Wrapper).forgotten = w.forgotten) := by
  have hrun := insertIntoSyntaxList_run parse fs insertPos newText syntaxList P d o kids
    j rest hpath hok hparse
  have hlen : o ≤ syntaxList.children.length :=
    listOk_le_length syntaxList (some P) d o syntaxList
      (pathOk_listOk syntaxList (some P) d o kids j rest fs.root syntaxList hpath hok)
  have hmem1 : ∀ w ∈ fs.registry.wrappers,
      w ∈ (getOrCreateWrapper P (wrapForest syntaxList.children fs.registry)).wrappers :=
    fun w hw => mem_getOrCreateWrapper P (mem_wrapForest _ _ hw)
  have hmem_final : ∀ x y : CNode,
      ROp.replace x y ∈ pathTraceN d o kids (j :: rest) fs.root →
      ∀ w ∈ fs.registry.wrappers, w.node = x →
      { w with node := y } ∈
        (applyOps (pathTraceN d o kids (j :: rest) fs.root)
          (getOrCreateWrapper P (wrapForest syntaxList.children fs.registry))).wrappers :=
    fun x y hxy w hw hwx =>
      applyOps_replace _ _ w x y (hmem1 w hw) hwx hxy hpair
  have hlistmem : ∀ op ∈ listTrace d o kids syntaxList,
      op ∈ pathTraceN d o kids (j :: rest) fs.root :=
    listTrace_sub_pathTraceN d o kids j rest fs.root syntaxList hpath
  have hlistF : ∀ op ∈ listTraceF d o syntaxList.children,
      op ∈ listTrace d o kids syntaxList := by
    obtain ⟨k0, p0, e0, cs0⟩ := syntaxList
    intro op hop
    rw [listTrace]
    exact List.mem_append_left _ hop
  refine ⟨?_, ?_, ?_, ?_, ?_, ?_⟩
  · rw [hrun]
  · rw [hrun]
  · intro jj c hget hjj
    constructor
    · rw [spliceListNode_children]
      have h1 : jj < (CForest.take o syntaxList.children).length := by
        rw [CForest.length_take o _ hlen]
        omega
      rw [CForest.get?_append_left _ _ jj h1, CForest.get?_take o jj _ hjj]
      exact hget
    · intro w hw hwx
      have hmemtr : ROp.replace c c ∈ pathTraceN d o kids (j :: rest) fs.root :=
        hlistmem _ (hlistF _ ((mem_listTraceF_of_get? d o _ jj c hget).1 hjj))
      have hw2 := hmem_final c c hmemtr w hw hwx
      rw [hrun]
      have heq : ({ w with node := c } : Wrapper) = w := by
        rw [← hwx]
      rwa [heq] at hw2
  · intro jj c hget hjj
    obtain ⟨t, rfl⟩ := Nat.exists_eq_add_of_le hjj
    constructor
    · rw [spliceListNode_children]
      have e1 : (o + t) + kids.length =
          (CForest.take o syntaxList.children).length + (kids.length + t) := by
        rw [CForest.length_take o _ hlen]
        omega
      rw [e1, CForest.get?_append_right, CForest.get?_append_right,
        CForest.get?_map, CForest.get?_drop, hget]
      rfl
    · intro w hw hwx
      have hmemtr : ROp.replace c (shiftTree d c) ∈
          pathTraceN d o kids (j :: rest) fs.root :=
        hlistmem _ (hlistF _ ((mem_listTraceF_of_get? d o _ (o + t) c hget).2 (by omega)))
      have hw2 := hmem_final c (shiftTree d c) hmemtr w hw hwx
      rw [hrun]
      exact hw2
  · intro i nk hget
    constructor
    · rw [spliceListNode_children]
      have e1 : o + i = (CForest.take o syntaxList.children).length + i := by
        rw [CForest.length_take o _ hlen]
      have hi : i < kids.length := CForest.get?_lt_length kids i nk hget
      rw [e1, CForest.get?_append_right, CForest.get?_append_left kids _ i hi]
      exact hget
    · rw [hrun]
      intro hfresh hwf
      have hgoc := getOrCreateWrapper_not_found nk _ hfresh
      refine ⟨⟨(applyOps (pathTraceN d o kids (j :: rest) fs.root)
          (getOrCreateWrapper P (wrapForest syntaxList.children fs.registry))).nextId,
          nk, false⟩, hgoc, rfl, rfl, ?_⟩
      intro w hw
      have h1 : w.wid < fs.registry.nextId := hwf w hw
      have h2 : fs.registry.nextId ≤
          (applyOps (pathTraceN d o kids (j :: rest) fs.root)
            (getOrCreateWrapper P (wrapForest syntaxList.children fs.registry))).nextId :=
        Evolves.nextId_le
          (((wrapForest_evolves syntaxList.children fs.registry).trans
            (evolves_getOrCreate P _)).trans (applyOps_evolves _ _))
      show w.wid ≠ (applyOps (pathTraceN d o kids (j :: rest) fs.root)
        (getOrCreateWrapper P (wrapForest syntaxList.children fs.registry))).nextId
      omega
  · intro x y hxy
    have hshape := replacePairs_pathTraceN d o kids (j :: rest) fs.root x y hxy
    have hmemtr : ROp.replace x y ∈ pathTraceN d o kids (j :: rest) fs.root :=
      (mem_replacePairs _ x y).mp hxy
    have hkindpos : y.kind = x.kind ∧ (y.pos = x.pos ∨ y.pos = x.pos + d) ∧
        (y.endPos = x.endPos ∨ y.endPos = x.endPos + d) := by
      rcases hshape with h | h | h
      · subst h
        exact ⟨rfl, Or.inl rfl, Or.inl rfl⟩
      · subst h
        exact ⟨shiftTree_kind d x, Or.inr (shiftTree_pos d x), Or.inr (shiftTree_endPos d x)⟩
      · exact ⟨h.1, Or.inl h.2.1, Or.inr h.2.2⟩
    refine ⟨hkindpos.1, hkindpos.2.1, hkindpos.2.2, ?_⟩
    intro w hw hwx
    rw [hrun]
    exact ⟨hmem_final x y hmemtr w hw hwx, rfl⟩

/-- Witness for C1: the spec's enum scenario — a file whose enum has one
member list child; one new member is inserted at offset 1 with four
characters of text.  The edit succeeds, the pre-existing member keeps its
wrapper untouched, and the new member sits at index 1 of the post-edit
list. -/
theorem claim1_witness :
    (insertIntoSyntaxList
        (fun _ => .node 0 0 16 (.cons (.node 10 0 16 (.cons (.node 1 4 6 .nil)
          (.cons (.node 20 8 14 (.cons (.node 30 8 10 .nil)
            (.cons (.node 30 10 14 .nil) .nil))) .nil))) .nil))
        ⟨['a'], .node 0 0 12 (.cons (.node 10 0 12 (.cons (.node 1 4 6 .nil)
            (.cons (.node 20 8 10 (.cons (.node 30 8 10 .nil) .nil)) .nil))) .nil),
          ⟨[⟨0, .node 0 0 12 (.cons (.node 10 0 12 (.cons (.node 1 4 6 .nil)
              (.cons (.node 20 8 10 (.cons (.node 30 8 10 .nil) .nil)) .nil))) .nil), false⟩,
            ⟨1, .node 10 0 12 (.cons (.node 1 4 6 .nil)
              (.cons (.node 20 8 10 (.cons (.node 30 8 10 .nil) .nil)) .nil)), false⟩,
            ⟨2, .node 30 8 10 .nil, false⟩], 3⟩⟩
        10 ['w', 'x', 'y', 'z']
        (.node 20 8 10 (.cons (.node 30 8 10 .nil) .nil))
        (some (.node 10 0 12 (.cons (.node 1 4 6 .nil)
          (.cons (.node 20 8 10 (.cons (.node 30 8 10 .nil) .nil)) .nil))))
        (1 : Int) (CForest.cons (.node 30 10 14 .nil) .nil).length).2 = none ∧
    (⟨2, .node 30 8 10 .nil, false⟩ : Wrapper) ∈
      (insertIntoSyntaxList
        (fun _ => .node 0 0 16 (.cons (.node 10 0 16 (.cons (.node 1 4 6 .nil)
          (.cons (.node 20 8 14 (.cons (.node 30 8 10 .nil)
            (.cons (.node 30 10 14 .nil) .nil))) .nil))) .nil))
        ⟨['a'], .node 0 0 12 (.cons (.node 10 0 12 (.cons (.node 1 4 6 .nil)
            (.cons (.node 20 8 10 (.cons (.node 30 8 10 .nil) .nil)) .nil))) .nil),
          ⟨[⟨0, .node 0 0 12 (.cons (.node 10 0 12 (.cons (.node 1 4 6 .nil)
              (.cons (.node 20 8 10 (.cons (.node 30 8 10 .nil) .nil)) .nil))) .nil), false⟩,
            ⟨1, .node 10 0 12 (.cons (.node 1 4 6 .nil)
              (.cons (.node 20 8 10 (.cons (.node 30 8 10 .nil) .nil)) .nil)), false⟩,
            ⟨2, .node 30 8 10 .nil, false⟩], 3⟩⟩
        10 ['w', 'x', 'y', 'z']
        (.node 20 8 10 (.cons (.node 30 8 10 .nil) .nil))
        (some (.node 10 0 12 (.cons (.node 1 4 6 .nil)
          (.cons (.node 20 8 10 (.cons (.node 30 8 10 .nil) .nil)) .nil))))
        (1 : Int) (CForest.cons (.node 30 10 14 .nil) .nil).length).1.registry.wrappers ∧
    (spliceListNode 4 1 (CForest.cons (.node 30 10 14 .nil) .nil)
        (.node 20 8 10 (.cons (.node 30 8 10 .nil) .nil))).children.get? (1 + 0) =
      some (.node 30 10 14 .nil) := by
  have H := claim1_insertion_isolation_identity_preservation
    (fun _ => .node 0 0 16 (.cons (.node 10 0 16 (.cons (.node 1 4 6 .nil)
      (.cons (.node 20 8 14 (.cons (.node 30 8 10 .nil)
        (.cons (.node 30 10 14 .nil) .nil))) .nil))) .nil))
    ⟨['a'], .node 0 0 12 (.cons (.node 10 0 12 (.cons (.node 1 4 6 .nil)
        (.cons (.node 20 8 10 (.cons (.node 30 8 10 .nil) .nil)) .nil))) .nil),
      ⟨[⟨0, .node 0 0 12 (.cons (.node 10 0 12 (.cons (.node 1 4 6 .nil)
          (.cons (.node 20 8 10 (.cons (.node 30 8 10 .nil) .nil)) .nil))) .nil), false⟩,
        ⟨1, .node 10 0 12 (.cons (.node 1 4 6 .nil)
          (.cons (.node 20 8 10 (.cons (.node 30 8 10 .nil) .nil)) .nil)), false⟩,
        ⟨2, .node 30 8 10 .nil, false⟩], 3⟩⟩
    10 ['w', 'x', 'y', 'z']
    (.node 20 8 10 (.cons (.node 30 8 10 .nil) .nil))
    (.node 10 0 12 (.cons (.node 1 4 6 .nil)
      (.cons (.node 20 8 10 (.cons (.node 30 8 10 .nil) .nil)) .nil)))
    4 1 (CForest.cons (.node 30 10 14 .nil) .nil) 0 [1]
    (by decide) (by decide) (by decide) (by decide) (by decide)
  exact ⟨H.1, (H.2.2.1 0 (.node 30 8 10 .nil) (by decide) (by decide)).2
      ⟨2, .node 30 8 10 .nil, false⟩ (by decide) rfl,
    (H.2.2.2.2.1 0 (.node 30 10 14 .nil) (by decide)).1⟩
